import Mathlib

set_option maxRecDepth 10000

/-!
Verification development for the Smart-ML-Framework graph-to-code compiler
and its bidirectional text synchronization engine.

The definitions below are a shallow embedding of the TypeScript sources:
  * `src/frontend/src/utils/serializePipeline.ts` (both variants),
  * `src/frontend/src/panels/CodePanel.tsx` (`generatePythonCode`,
    `parseCodeToConfig`, `handleApplyChanges`, `handleReset`),
  * `src/frontend/src/canvas/PipelineCanvas.tsx` (`saveSession`).

JavaScript numbers are modelled by their decimal observable form (the
program never does arithmetic on parameter numbers: it only stores them,
interpolates them into text and re-parses them with `parseFloat` /
`parseInt`), strings by Lean `String`, objects holding parameters by
association lists in insertion order.
-/

/-- Decimal observable form of a JavaScript number as used by this program:
either `NaN` or a sign, an integer part and a list of fraction digits.
The canonical form (no trailing zero fraction digit, no `-0`) corresponds
one-to-one to the float values the program can print and re-parse. -/
inductive JsNum where
  | nan : JsNum
  | dec (neg : Bool) (intPart : Nat) (frac : List (Fin 10)) : JsNum
deriving DecidableEq, Repr

/-- A JavaScript parameter value: the program stores only strings and
numbers in block `params`. -/
inductive JsVal where
  | vstr (s : String) : JsVal
  | vnum (n : JsNum) : JsVal
deriving DecidableEq, Repr

/-- `node.data` of a React-Flow node: the block type tag and the parameter
object (association list in insertion order). -/
structure NodeData where
  blockType : String
  params : List (String × JsVal)
deriving DecidableEq, Repr

/-- A React-Flow node as used by the compiler: `{ id, data }`. -/
structure Node where
  id : String
  data : NodeData
deriving DecidableEq, Repr

/-- A React-Flow edge: `{ id, source, target }`. -/
structure Edge where
  id : String
  source : String
  target : String
deriving DecidableEq, Repr

/-- Entry of the serialized pipeline specification
(`SerializedBlock` in `serializePipeline.ts`). -/
structure SerializedBlock where
  id : String
  type : String
  params : List (String × JsVal)
deriving DecidableEq, Repr

/-- `inputsMap[id]`: sources of the edges targeting `id`, in edge
insertion order (the `for (const edge of edges)` loop building
`inputsMap`). -/
def inputsOf (edges : List Edge) (id : String) : List String :=
  (edges.filter (fun e => e.target = id)).map (fun e => e.source)

/-- `node.data.params || {}` lookup is total in the model; parameters are
the association list itself. -/
def nodeParams (n : Node) : List (String × JsVal) := n.data.params

/-- Whether `id` is an endpoint of at least one edge (membership in the
`connectedNodeIds` set of the filtering `serializePipeline`). -/
def participatesB (id : String) (edges : List Edge) : Bool :=
  edges.any (fun e => e.source = id || e.target = id)

/-- First `serializePipeline` variant (`serializePipeline.ts`, lines
10-38): keeps only nodes that participate in at least one edge, then maps
each to its serialized block with `inputs` not modelled here beyond the
source `inputsMap` (the claims are about membership). -/
structure SerializedBlockFull where
  id : String
  type : String
  params : List (String × JsVal)
  inputs : List String
deriving DecidableEq, Repr

/-- Serialize one node exactly as both variants do. -/
def toSerialized (edges : List Edge) (n : Node) : SerializedBlockFull :=
  { id := n.id
    type := n.data.blockType
    params := nodeParams n
    inputs := inputsOf edges n.id }

/-- Connectivity-filtering `serializePipeline` (first variant in
`serializePipeline.ts`): nodes with zero edges are dropped before
serialization. -/
def serializePipeline (nodes : List Node) (edges : List Edge) :
    List SerializedBlockFull :=
  (nodes.filter (fun n => participatesB n.id edges)).map (toSerialized edges)

/-- Second `serializePipeline` variant in the same file (lines 48-67): no
connectivity filter, every node is serialized. -/
def serializePipelineAll (nodes : List Node) (edges : List Edge) :
    List SerializedBlockFull :=
  nodes.map (toSerialized edges)

/-! ## Session reconciler (`saveSession` in `PipelineCanvas.tsx`) -/

/-- A persistence call issued by `saveSession`: `createSession` or
`updateSession id`. -/
inductive PCall where
  | create : PCall
  | update (id : String) : PCall
deriving DecidableEq, Repr

/-- `PCall.create` recognizer. -/
def PCall.isCreate : PCall → Bool
  | .create => true
  | .update _ => false

/-- One firing of the debounced `saveSession`: given the bound session
identity (`currentSessionId`), the current graph and the identity the
backend would mint for a successful `createSession`, return the new bound
identity and the persistence call issued (`none` when the guard
`nodes.length === 0 && edges.length === 0 && !currentSessionId`
suppresses the call). A successful create binds the returned identity
via `setCurrentSessionId(newSession.id)`. -/
def saveStep (st : Option String) (nodes : List Node) (edges : List Edge)
    (freshId : String) : Option String × Option PCall :=
  if nodes.isEmpty && edges.isEmpty && st.isNone then (st, none)
  else
    match st with
    | some i => (some i, some (.update i))
    | none => (some freshId, some .create)

/-- Run a whole editing session: a trace of reconciliation firings, each
with the graph at that moment and the backend-minted identity; collect
the persistence calls in order. -/
def saveRun (st : Option String) :
    List (List Node × List Edge × String) → Option String × List PCall
  | [] => (st, [])
  | (ns, es, fid) :: rest =>
      let stepRes := saveStep st ns es fid
      let restRes := saveRun stepRes.1 rest
      (restRes.1, stepRes.2.toList ++ restRes.2)

/-! ## Code panel state machine (`CodePanel.tsx`) -/

/-- The sync badge states of the panel. -/
inductive SyncStatus where
  | synced | modified | error
deriving DecidableEq, Repr

/-- The state `handleReset` acts on: the node list (Graph Model) plus the
panel-local `code`, `lastGeneratedCode` and `syncStatus`. -/
structure PanelModel where
  nodes : List Node
  code : String
  lastGeneratedCode : String
  syncStatus : SyncStatus
deriving DecidableEq, Repr

/-- `handleReset`: `setCode(lastGeneratedCode); setSyncStatus("synced")`.
No `onUpdateNodes` call is made, so the node list is carried unchanged. -/
def handleReset (s : PanelModel) : PanelModel :=
  { s with code := s.lastGeneratedCode, syncStatus := .synced }

/-! ## The dependency sort (`visit` in `generatePythonCode`)

The source builds `nodeMap = new Map(nodes.map(n => [n.id, n]))` (later
entries win on duplicate ids), a `visited` set and a `sorted` array, and
runs a recursive `visit` that marks a node visited BEFORE recursing into
its inputs, then pushes the node (if present in `nodeMap`).  The Lean
embedding threads the state explicitly and uses a fuel argument as the
termination device; the fuel-sufficiency theorem below shows that with
fuel equal to the number of distinct ids the recursion always completes,
which is the shallow-embedding form of "the JavaScript recursion
terminates". -/

/-- `nodeMap.get id`: the last node in insertion order with this id
(JavaScript `Map` keeps the last binding for duplicate keys). -/
def nodeGet (nodes : List Node) (i : String) : Option Node :=
  nodes.reverse.find? (fun n => n.id = i)

/-- Whether `nodeMap.get id` succeeds. -/
def isNodeId (nodes : List Node) (i : String) : Bool :=
  (nodeGet nodes i).isSome

/-- The mutable state of `visit`: the `visited` set (membership only) and
the `sorted` output, kept as ids. -/
structure DfsSt where
  visited : List String
  out : List String
deriving DecidableEq, Repr

/-- The `visit` recursion, sequentially applied to a work list: marks the
node visited before recursing into `inps v` (so revisits return
immediately), then appends it to the output when `isNode v`.  The fuel
argument is a pure termination device (consumed at every step so the
recursion is structural and computable); the fuel-sufficiency theorem
shows a computable bound on which the run always completes. -/
def dfsL (inps : String → List String) (isNode : String → Bool) :
    Nat → List String → DfsSt → Option DfsSt
  | _, [], s => some s
  | 0, _ :: _, _ => none
  | fuel + 1, v :: rest, s =>
    if v ∈ s.visited then dfsL inps isNode fuel rest s
    else
      match dfsL inps isNode fuel (inps v) ⟨v :: s.visited, s.out⟩ with
      | none => none
      | some s2 =>
          dfsL inps isNode fuel rest
            ⟨s2.visited, if isNode v then s2.out ++ [v] else s2.out⟩

/-- All ids occurring in the graph, deduplicated. -/
def graphIds (nodes : List Node) (edges : List Edge) : List String :=
  (nodes.map (fun n => n.id) ++
    edges.flatMap (fun e => [e.source, e.target])).dedup

/-- A computable fuel bound on which the visit always completes: one step
per work-list entry plus, for every distinct id, one marking step and one
step per input. -/
def fuelBound (nodes : List Node) (edges : List Edge) : Nat :=
  nodes.length + ((graphIds nodes edges).map
    (fun i => 1 + (inputsOf edges i).length)).sum

/-- The complete run of `visit` over all nodes
(`for (const node of nodes) visit(node.id)`). -/
def topoRun (nodes : List Node) (edges : List Edge) : Option DfsSt :=
  dfsL (inputsOf edges) (isNodeId nodes) (fuelBound nodes edges)
    (nodes.map (fun n => n.id)) ⟨[], []⟩

/-- The ids of the `sorted` array produced by the depth-first visit. -/
def topoIds (nodes : List Node) (edges : List Edge) : List String :=
  match topoRun nodes edges with
  | some s => s.out
  | none => []

/-- The `sorted` array itself (each pushed id resolved through
`nodeMap.get`). -/
def sortedNodes (nodes : List Node) (edges : List Edge) : List Node :=
  (topoIds nodes edges).filterMap (nodeGet nodes)

/-- One dependency step of the graph: there is an edge from `a` to `b`
(`b` consumes the output of `a`). -/
def edgeStep (edges : List Edge) (a b : String) : Prop :=
  ∃ e ∈ edges, e.source = a ∧ e.target = b

/-- Acyclicity: no id reaches itself through a nonempty chain of edges. -/
def Acyclic (edges : List Edge) : Prop :=
  ∀ a, ¬ Relation.TransGen (edgeStep edges) a a

/-- `u` appears strictly before `t` in the list `l`. -/
def Before (u t : String) (l : List String) : Prop :=
  ∃ l₁ l₂, l = l₁ ++ t :: l₂ ∧ u ∈ l₁

/-- State invariant of the visit: the output has no duplicates and
contains exactly the visited node-ids that are not on the (ghost) grey
stack of in-progress vertices. -/
def InvA (isNode : String → Bool) (s : DfsSt) (grey : List String) : Prop :=
  s.out.Nodup ∧ ∀ i, i ∈ s.out ↔ (i ∈ s.visited ∧ isNode i = true ∧ i ∉ grey)

/-- Topological invariant: every emitted vertex is preceded in the output
by each of its node-inputs. -/
def InvT (inps : String → List String) (isNode : String → Bool)
    (s : DfsSt) : Prop :=
  ∀ t ∈ s.out, ∀ u ∈ inps t, isNode u = true → Before u t s.out

/-! ## Claim C2: cyclic graphs and the missing `CyclicGraphError` -/

/-- The 2-block mutual edge pair used by the spec's cycle-detection
property. -/
def cycEdges : List Edge :=
  [ { id := "e1", source := "a", target := "b" },
    { id := "e2", source := "b", target := "a" } ]

/-! ## Text generation (`generatePythonCode` in `CodePanel.tsx`)

JavaScript numbers appear in the generator only through template
interpolation and in the parser only through `parseFloat` / `parseInt`,
so they are represented by their decimal observable form (`JsNum`).
`params?.k || dflt` uses JavaScript truthiness (empty string and zero are
falsy); `params?.k ?? dflt` substitutes only for a missing key. -/

/-- Decimal digit character of a value below ten. -/
def digitChar (n : Nat) : Char := Char.ofNat (48 + n)

/-- Decimal digits of a natural number, most significant first; the fuel
argument (`n + 1` at the call site) makes the recursion structural. -/
def natDigitsAux : Nat → Nat → List Char
  | 0, _ => []
  | fuel + 1, n =>
      if n < 10 then [digitChar n]
      else natDigitsAux fuel (n / 10) ++ [digitChar (n % 10)]

/-- Decimal digits of a natural number, most significant first. -/
def natDigits (n : Nat) : List Char := natDigitsAux (n + 1) n

/-- Characters of a fraction digit list. -/
def fracChars (l : List (Fin 10)) : List Char :=
  l.map (fun d => digitChar d.val)

/-- The string JavaScript prints for a number (template interpolation). -/
def jsNumToChars : JsNum → List Char
  | .nan => ['N', 'a', 'N']
  | .dec neg i frac =>
      (if neg then ['-'] else []) ++ natDigits i ++
        (if frac.isEmpty then [] else '.' :: fracChars frac)

/-- String form of `jsNumToChars`. -/
def jsNumToStr (n : JsNum) : String := String.mk (jsNumToChars n)

/-- Template interpolation of a parameter value. -/
def valToStr : JsVal → String
  | .vstr s => s
  | .vnum n => jsNumToStr n

/-- JavaScript truthiness of a parameter value: the empty string, `0`
(either sign) and `NaN` are falsy. -/
def truthy : JsVal → Bool
  | .vstr s => !(s == "")
  | .vnum .nan => false
  | .vnum (.dec _ i frac) => !(i == 0 && frac.isEmpty)

/-- `params?.k || dflt` in string position: the default replaces a
missing or falsy value; comparisons and interpolation both consume the
printed form, which coincides with the JavaScript observable behavior of
this program (values are only interpolated and compared against string
literals no number ever prints to). -/
def strParam (ps : List (String × JsVal)) (k dflt : String) : String :=
  match ps.lookup k with
  | none => dflt
  | some v => if truthy v then valToStr v else dflt

/-- `params?.k ?? dflt` in interpolation position: the (stringified)
default replaces only a missing key. -/
def numParamStr (ps : List (String × JsVal)) (k dflt : String) : String :=
  match ps.lookup k with
  | none => dflt
  | some v => valToStr v

/-- Lines of the `dataset` template (case `"dataset"`). -/
def datasetLines (ps : List (String × JsVal)) : List String :=
  let filePath := strParam ps "file_path" "path/to/data.csv"
  let target := strParam ps "target" "target"
  ["# === DATASET CONFIG ===",
   "FILE_PATH = \"" ++ filePath ++ "\"",
   "TARGET_COLUMN = \"" ++ target ++ "\"",
   "",
   "df = pd.read_csv(FILE_PATH)",
   "X = df.drop(columns=[TARGET_COLUMN])",
   "y = df[TARGET_COLUMN]",
   "print(f\"Loaded \x7blen(df)\x7d rows, \x7blen(X.columns)\x7d features\")",
   ""]

/-- Lines of the `split` template (case `"split"`). -/
def splitLines (ps : List (String × JsVal)) : List String :=
  let testSize := numParamStr ps "test_size" "0.2"
  ["# === SPLIT CONFIG ===",
   "TEST_SIZE = " ++ testSize,
   "",
   "X_train, X_test, y_train, y_test = train_test_split(",
   "    X, y, test_size=TEST_SIZE, random_state=42",
   ")",
   "print(f\"Train: \x7blen(X_train)\x7d, Test: \x7blen(X_test)\x7d\")",
   ""]

/-- Lines of the `model` template (case `"model"`), together with the new
lookback `taskType`. -/
def modelLines (ps : List (String × JsVal)) : List String × String :=
  let taskType := strParam ps "task" "classification"
  let nEstimators := numParamStr ps "n_estimators" "100"
  let maxDepth := numParamStr ps "max_depth" "10"
  let modelClass := if taskType = "classification"
    then "RandomForestClassifier" else "RandomForestRegressor"
  (["# === MODEL CONFIG ===",
    "TASK_TYPE = \"" ++ taskType ++ "\"",
    "N_ESTIMATORS = " ++ nEstimators,
    "MAX_DEPTH = " ++ maxDepth,
    "",
    "model = " ++ modelClass ++ "(",
    "    n_estimators=N_ESTIMATORS,",
    "    max_depth=MAX_DEPTH,",
    "    random_state=42,",
    "    n_jobs=-1",
    ")",
    ""], taskType)

/-- Lines of the `trainer` template (case `"trainer"`). -/
def trainerLines : List String :=
  ["# === TRAINING ===",
   "model.fit(X_train, y_train)",
   "print(\"Training complete!\")",
   ""]

/-- Lines of the `metrics` template (case `"metrics"`), branching on the
lookback `taskType`. -/
def metricsLines (taskType : String) : List String :=
  ["# === EVALUATION ===",
   "y_pred = model.predict(X_test)",
   ""] ++
  (if taskType = "classification" then
    ["accuracy = accuracy_score(y_test, y_pred)",
     "precision = precision_score(y_test, y_pred, average=\x27weighted\x27, zero_division=0)",
     "recall = recall_score(y_test, y_pred, average=\x27weighted\x27, zero_division=0)",
     "f1 = f1_score(y_test, y_pred, average=\x27weighted\x27, zero_division=0)",
     "",
     "print(f\"Accuracy:  \x7baccuracy:.4f\x7d\")",
     "print(f\"Precision: \x7bprecision:.4f\x7d\")",
     "print(f\"Recall:    \x7brecall:.4f\x7d\")",
     "print(f\"F1 Score:  \x7bf1:.4f\x7d\")"]
  else
    ["mse = mean_squared_error(y_test, y_pred)",
     "mae = mean_absolute_error(y_test, y_pred)",
     "r2 = r2_score(y_test, y_pred)",
     "",
     "print(f\"MSE: \x7bmse:.4f\x7d\")",
     "print(f\"MAE: \x7bmae:.4f\x7d\")",
     "print(f\"R2:  \x7br2:.4f\x7d\")"]) ++
  [""]

/-- The `switch (blockType)` of the generator: lines contributed by one
block plus the threaded lookback state (unknown block types contribute
nothing). -/
def blockLines (n : Node) (taskType : String) : List String × String :=
  match n.data.blockType with
  | "dataset" => (datasetLines (nodeParams n), taskType)
  | "split" => (splitLines (nodeParams n), taskType)
  | "model" => modelLines (nodeParams n)
  | "trainer" => (trainerLines, taskType)
  | "metrics" => (metricsLines taskType, taskType)
  | _ => ([], taskType)

/-- The `for (const node of sorted)` loop threading `taskType`. -/
def renderBlocks : List Node → String → List String
  | [], _ => []
  | n :: rest, taskType =>
      let res := blockLines n taskType
      res.1 ++ renderBlocks rest res.2

/-- The fixed header lines pushed before the loop. -/
def headerLines : List String :=
  ["# ==========================================",
   "# ML Pipeline - Auto-generated Python Code",
   "# Edit values below to update the pipeline",
   "# ==========================================",
   "",
   "import pandas as pd",
   "from sklearn.model_selection import train_test_split",
   "from sklearn.ensemble import RandomForestClassifier, RandomForestRegressor",
   "from sklearn.metrics import accuracy_score, precision_score, recall_score, f1_score",
   "from sklearn.metrics import mean_squared_error, mean_absolute_error, r2_score",
   ""]

/-- `lines.join("\n")`. -/
def joinLn : List String → String
  | [] => ""
  | [l] => l
  | l :: rest => l ++ "\n" ++ joinLn rest

/-- `generatePythonCode(nodes, edges)`: empty for an empty node list,
otherwise the header plus the per-block templates in dependency-visit
order. -/
def generatePythonCode (nodes : List Node) (edges : List Edge) : String :=
  if nodes.isEmpty then ""
  else joinLn (headerLines ++
    renderBlocks (sortedNodes nodes edges) "classification")

/-! ## The reverse parser (`parseCodeToConfig`)

Each marker is recognized by one regular expression of one of three
shapes: `KEY\s*=\s*["]([^"]+)["]` (also accepting the single quote),
`KEY\s*=\s*([\d.]+)` and `KEY\s*=\s*(\d+)`.  `String.match` returns the
capture of the leftmost match; the functions below implement exactly
that search for these three pattern shapes. -/

/-- JavaScript `\s` on the characters this program can produce. -/
def isWsCh (c : Char) : Bool :=
  c = ' ' || c = '\t' || c = '\n' || c = '\r' || c = '\x0b' || c = '\x0c'

/-- The `["']` character class. -/
def isQuoteCh (c : Char) : Bool := c = '"' || c = '\x27'

/-- The `\d` character class. -/
def isDigitCh (c : Char) : Bool := decide ('0' ≤ c) && decide (c ≤ '9')

/-- The `[\d.]` character class. -/
def isNumDotCh (c : Char) : Bool := isDigitCh c || c = '.'

/-- The three marker shapes used by `parseCodeToConfig`. -/
inductive MShape where
  | quoted | floatLike | intLike
deriving DecidableEq, Repr

/-- Consume an expected literal; `none` on mismatch. -/
def dropPre : List Char → List Char → Option (List Char)
  | [], s => some s
  | _ :: _, [] => none
  | p :: ps, c :: cs => if c = p then dropPre ps cs else none

/-- Try to match one marker pattern at the current position, returning
the capture group.  Greedy runs followed by a character outside the run
class are exactly the regex backtracking behavior of these patterns. -/
def matchAt (key : List Char) (sh : MShape) (s : List Char) :
    Option (List Char) :=
  match dropPre key s with
  | none => none
  | some s1 =>
    match s1.dropWhile isWsCh with
    | [] => none
    | c :: s2 =>
      if c = '=' then
        let s3 := s2.dropWhile isWsCh
        match sh with
        | .quoted =>
          match s3 with
          | [] => none
          | q :: s4 =>
            if isQuoteCh q then
              let cap := s4.takeWhile (fun d => !(isQuoteCh d))
              match s4.dropWhile (fun d => !(isQuoteCh d)) with
              | [] => none
              | _ :: _ => if cap.isEmpty then none else some cap
            else none
        | .floatLike =>
          let cap := s3.takeWhile isNumDotCh
          if cap.isEmpty then none else some cap
        | .intLike =>
          let cap := s3.takeWhile isDigitCh
          if cap.isEmpty then none else some cap
      else none

/-- Leftmost match: scan every start position left to right. -/
def findMatchL (key : List Char) (sh : MShape) : List Char → Option (List Char)
  | [] => none
  | c :: rest =>
      match matchAt key sh (c :: rest) with
      | some cap => some cap
      | none => findMatchL key sh rest

/-- `code.match(regex)` for one marker pattern, returning the capture. -/
def findMatch (key : String) (sh : MShape) (code : String) : Option String :=
  (findMatchL key.data sh code.data).map (fun l => String.mk l)

/-- Numeric value of a decimal digit character. -/
def charToFin (c : Char) : Fin 10 :=
  ⟨(c.toNat - 48) % 10, Nat.mod_lt _ (by omega)⟩

/-- Value of a most-significant-first digit string. -/
def digitsToNat (l : List Char) : Nat :=
  l.foldl (fun acc c => acc * 10 + (c.toNat - 48)) 0

/-- Drop trailing zero fraction digits (`0.20` and `0.2` are the same
float). -/
def stripZeros (l : List (Fin 10)) : List (Fin 10) :=
  (l.reverse.dropWhile (fun d => d.val == 0)).reverse

/-- Optional leading sign of a numeric literal. -/
def parseSign (l : List Char) : Bool × List Char :=
  match l with
  | [] => (false, l)
  | c :: rest =>
      if c = '-' then (true, rest)
      else if c = '+' then (false, rest)
      else (false, c :: rest)

/-- Fraction digits after the optional dot. -/
def fracPart (rest1 : List Char) : List Char :=
  match rest1 with
  | '.' :: r => r.takeWhile isDigitCh
  | _ => []

/-- `parseFloat` on a capture: optional sign, integer digits, optional
dot and fraction digits; `NaN` when no digit was consumed.  The result is
canonical (no trailing fraction zeros, no negative zero). -/
def parseFloatChars (l : List Char) : JsNum :=
  let signRes := parseSign l
  let intDigits := signRes.2.takeWhile isDigitCh
  let rest1 := signRes.2.dropWhile isDigitCh
  let fracDigits := fracPart rest1
  if intDigits.isEmpty && fracDigits.isEmpty then JsNum.nan
  else
    let i := digitsToNat intDigits
    let f := stripZeros (fracDigits.map charToFin)
    JsNum.dec (signRes.1 && !(i == 0 && f.isEmpty)) i f

/-- `parseInt` on a capture: optional sign and integer digits; `NaN`
when no digit was consumed. -/
def parseIntChars (l : List Char) : JsNum :=
  let signRes := parseSign l
  let ds := signRes.2.takeWhile isDigitCh
  if ds.isEmpty then JsNum.nan
  else JsNum.dec (signRes.1 && !(digitsToNat ds == 0)) (digitsToNat ds) []

/-- The `config` object built by `parseCodeToConfig`: one optional entry
per hand-enumerated marker (the source assigns exactly these six keys
into `config.dataset` / `config.split` / `config.model`). -/
structure ParsedConfig where
  datasetFilePath : Option String
  datasetTarget : Option String
  splitTestSize : Option JsNum
  modelTask : Option String
  modelNEstimators : Option JsNum
  modelMaxDepth : Option JsNum
deriving DecidableEq, Repr

/-- `parseCodeToConfig(code)`: six independent leftmost-match
extractions; a marker that does not match is simply absent.  Every
operation involved is total, so this function never throws. -/
def parseCodeToConfig (code : String) : ParsedConfig :=
  { datasetFilePath := findMatch "FILE_PATH" .quoted code
    datasetTarget := findMatch "TARGET_COLUMN" .quoted code
    splitTestSize := (findMatch "TEST_SIZE" .floatLike code).map
      (fun cap => parseFloatChars cap.data)
    modelTask := findMatch "TASK_TYPE" .quoted code
    modelNEstimators := (findMatch "N_ESTIMATORS" .intLike code).map
      (fun cap => parseIntChars cap.data)
    modelMaxDepth := (findMatch "MAX_DEPTH" .intLike code).map
      (fun cap => parseIntChars cap.data) }

/-! ## Applying parsed patches (`handleApplyChanges`) -/

/-- A single optional patch entry. -/
def optEntry (k : String) (v : Option JsVal) : List (String × JsVal) :=
  match v with
  | none => []
  | some x => [(k, x)]

/-- `config.dataset` as an insertion-ordered patch. -/
def datasetPatch (c : ParsedConfig) : List (String × JsVal) :=
  optEntry "file_path" (c.datasetFilePath.map JsVal.vstr) ++
    optEntry "target" (c.datasetTarget.map JsVal.vstr)

/-- `config.split` as an insertion-ordered patch. -/
def splitPatch (c : ParsedConfig) : List (String × JsVal) :=
  optEntry "test_size" (c.splitTestSize.map JsVal.vnum)

/-- `config.model` as an insertion-ordered patch. -/
def modelPatch (c : ParsedConfig) : List (String × JsVal) :=
  optEntry "task" (c.modelTask.map JsVal.vstr) ++
    optEntry "n_estimators" (c.modelNEstimators.map JsVal.vnum) ++
    optEntry "max_depth" (c.modelMaxDepth.map JsVal.vnum)

/-- The patch `handleApplyChanges` would spread into a block of the given
type (`Object.keys(...).length > 0` is patch non-emptiness). -/
def patchFor (c : ParsedConfig) (bt : String) : List (String × JsVal) :=
  match bt with
  | "dataset" => datasetPatch c
  | "split" => splitPatch c
  | "model" => modelPatch c
  | _ => []

/-- The object spread `{...existingParams, ...patch}`: existing keys keep
their position and are overridden where the patch has the key; new patch
keys are appended in patch order. -/
def mergeParams (ps patch : List (String × JsVal)) :
    List (String × JsVal) :=
  ps.map (fun kv => (kv.1, ((patch.lookup kv.1).getD kv.2))) ++
    patch.filter (fun kv => (ps.lookup kv.1).isNone)

/-- One node under `handleApplyChanges`: a targeted per-block-type merge
when the extracted config for its type is non-empty, the node unchanged
otherwise. -/
def applyTo (c : ParsedConfig) (n : Node) : Node :=
  let patch := patchFor c n.data.blockType
  if patch.isEmpty then n
  else { n with data := { n.data with params := mergeParams (nodeParams n) patch } }

/-- `handleApplyChanges`: parse the edited text (total, never throws, so
the `catch` branch setting the `error` badge is unreachable), apply the
per-block-type patches via `onUpdateNodes`, and set the badge to
`synced`. -/
def handleApplyChanges (code : String) (nodes : List Node) :
    List Node × SyncStatus :=
  (nodes.map (applyTo (parseCodeToConfig code)), SyncStatus.synced)

/-! ## Claim C6: connectivity filtering of the pipeline specification -/

/-- A palette-drop node used in concrete counterexamples. -/
def orphanNode : Node :=
  { id := "orphan", data := { blockType := "dataset", params := [] } }

/-! ## Demo values shared by concrete witnesses and counterexamples -/

/-- A well-formed dataset block. -/
def demoDataset : Node :=
  ⟨"d", ⟨"dataset", [("file_path", .vstr "data/train.csv"),
    ("target", .vstr "label")]⟩⟩

/-- A well-formed split block carrying an extra non-marker parameter. -/
def demoSplit : Node :=
  ⟨"s", ⟨"split", [("test_size", .vnum (.dec false 0 [⟨2, by omega⟩])),
    ("shuffle", .vstr "keepme")]⟩⟩

/-- A well-formed model block. -/
def demoModel : Node :=
  ⟨"m", ⟨"model", [("task", .vstr "regression"),
    ("n_estimators", .vnum (.dec false 200 [])),
    ("max_depth", .vnum (.dec false 7 []))]⟩⟩

/-- The canonical five-block pipeline. -/
def demoNodes : List Node :=
  [demoDataset, demoSplit, demoModel,
   ⟨"t", ⟨"trainer", []⟩⟩, ⟨"e", ⟨"metrics", []⟩⟩]

/-- The canonical chain of edges over `demoNodes`. -/
def demoEdges : List Edge :=
  [⟨"1", "d", "s"⟩, ⟨"2", "s", "m"⟩, ⟨"3", "m", "t"⟩, ⟨"4", "t", "e"⟩]

/-- A dataset block whose `file_path` is the empty string — a legal graph
state, but a falsy value for the generator's `params?.file_path || dflt`
default. -/
def emptyPathNode : Node :=
  ⟨"d", ⟨"dataset", [("file_path", .vstr ""), ("target", .vstr "label")]⟩⟩

/-! ## Number printing and reparsing lemmas -/

/-- Canonical fraction: no trailing zero digit. -/
def fracCanonB (l : List (Fin 10)) : Bool :=
  match l.reverse with
  | [] => true
  | d :: _ => !(d.val == 0)

/-- A number the generator can print and the float marker can reparse
exactly: non-`NaN`, nonnegative, canonical fraction. -/
def goodNumB : JsNum → Bool
  | .dec false _ frac => fracCanonB frac
  | _ => false

/-- A number the integer marker can reparse exactly: a nonnegative
integer. -/
def goodIntB : JsNum → Bool
  | .dec false _ frac => frac.isEmpty
  | _ => false

/-- A string value whose marker round-trips: nonempty and free of quote
characters and of uppercase letters (so it can neither terminate the
capture early nor fake another marker key). -/
def safeChar (c : Char) : Bool :=
  !(c = '"') && !(c = '\x27') && !(c.isUpper)

/-- Safety of a whole string parameter. -/
def safeStrB (s : String) : Bool :=
  !(s == "") && s.data.all safeChar

/-! ## Leftmost-match machinery

`Clears key s` says no match of a `key` marker pattern can begin at any
position inside `s`, whatever text follows; it composes over
concatenation, which lets the leftmost-match search skip every chunk of
generated text other than the marker itself. -/

/-- No marker match can begin inside `s`, whatever follows it. -/
def Clears (key : List Char) (s : List Char) : Prop :=
  ∀ (sh : MShape) (rest : List Char) (i : Nat), i < s.length →
    matchAt key sh (List.drop i s ++ rest) = none

/-- Is the first list a prefix of the second? -/
def listIsPre : List Char → List Char → Bool
  | [], _ => true
  | _ :: _, [] => false
  | a :: as, b :: bs => a == b && listIsPre as bs

/-- Conservative check that a match beginning at this suffix of a
concrete segment must fail inside the segment, independently of the
continuation. -/
def posCleanB (key t : List Char) : Bool :=
  match dropPre key t with
  | some t1 =>
      match t1.dropWhile isWsCh with
      | [] => false
      | c :: _ => !(c == '=')
  | none => !(listIsPre t key)

/-- `posCleanB` at every start position of a concrete segment. -/
def segCleanB (key : List Char) : List Char → Bool
  | [] => true
  | s@(_ :: rest) => posCleanB key s && segCleanB key rest

/-! ## Lines and their character stream -/

/-- One line of the joined text: its characters plus the newline the join
inserts after it. -/
def withNl (l : String) : List Char := l.data ++ ['\n']

/-- Character stream of a line list where every line is followed by a
newline (the join of a list whose last line is empty, minus that final
empty line). -/
def charBlob (ls : List String) : List Char := ls.flatMap withNl

/-! ## Good parameters and template segments -/

/-- Round-trip-good parameters of one node: the marker-covered parameters
of the three marker block types are present with safe values (safe
strings; canonical nonnegative decimals; nonnegative integers). -/
def goodParams (n : Node) : Prop :=
  match n.data.blockType with
  | "dataset" =>
      (∃ fp, (nodeParams n).lookup "file_path" = some (.vstr fp)
        ∧ safeStrB fp = true)
      ∧ (∃ tg, (nodeParams n).lookup "target" = some (.vstr tg)
        ∧ safeStrB tg = true)
  | "split" =>
      ∃ q, (nodeParams n).lookup "test_size" = some (.vnum q)
        ∧ goodNumB q = true
  | "model" =>
      (∃ tk, (nodeParams n).lookup "task" = some (.vstr tk)
        ∧ safeStrB tk = true)
      ∧ (∃ ne, (nodeParams n).lookup "n_estimators" = some (.vnum ne)
        ∧ goodIntB ne = true)
      ∧ (∃ md, (nodeParams n).lookup "max_depth" = some (.vnum md)
        ∧ goodIntB md = true)
  | _ => True

/-- Number of blocks of a given type. -/
def countType (nodes : List Node) (bt : String) : Nat :=
  (nodes.filter (fun n => n.data.blockType == bt)).length

/-- Concrete segments of the dataset template (the symbolic parameter
holes sit between them). -/
def datasetSegs : List (List Char) :=
  [withNl "# === DATASET CONFIG ===",
   "FILE_PATH = \"".data,
   "\"\n".data,
   "TARGET_COLUMN = \"".data,
   withNl "",
   withNl "df = pd.read_csv(FILE_PATH)",
   withNl "X = df.drop(columns=[TARGET_COLUMN])",
   withNl "y = df[TARGET_COLUMN]",
   withNl "print(f\"Loaded \x7blen(df)\x7d rows, \x7blen(X.columns)\x7d features\")"]

/-- Concrete segments of the split template. -/
def splitSegs : List (List Char) :=
  [withNl "# === SPLIT CONFIG ===",
   "TEST_SIZE = ".data,
   "\n".data,
   withNl "",
   withNl "X_train, X_test, y_train, y_test = train_test_split(",
   withNl "    X, y, test_size=TEST_SIZE, random_state=42",
   withNl ")",
   withNl "print(f\"Train: \x7blen(X_train)\x7d, Test: \x7blen(X_test)\x7d\")"]

/-- Concrete segments of the model template (both model classes). -/
def modelSegs : List (List Char) :=
  [withNl "# === MODEL CONFIG ===",
   "TASK_TYPE = \"".data,
   "\"\n".data,
   "N_ESTIMATORS = ".data,
   "MAX_DEPTH = ".data,
   "\n".data,
   withNl "",
   withNl "model = RandomForestClassifier(",
   withNl "model = RandomForestRegressor(",
   withNl "    n_estimators=N_ESTIMATORS,",
   withNl "    max_depth=MAX_DEPTH,",
   withNl "    random_state=42,",
   withNl "    n_jobs=-1",
   withNl ")"]

/-- Concrete segments (whole lines) of the trainer template. -/
def trainerSegs : List (List Char) :=
  [withNl "# === TRAINING ===",
   withNl "model.fit(X_train, y_train)",
   withNl "print(\"Training complete!\")",
   withNl ""]

/-- Concrete segments (whole lines) of the metrics template, both
branches. -/
def metricsSegs : List (List Char) :=
  [withNl "# === EVALUATION ===",
   withNl "y_pred = model.predict(X_test)",
   withNl "",
   withNl "accuracy = accuracy_score(y_test, y_pred)",
   withNl "precision = precision_score(y_test, y_pred, average=\x27weighted\x27, zero_division=0)",
   withNl "recall = recall_score(y_test, y_pred, average=\x27weighted\x27, zero_division=0)",
   withNl "f1 = f1_score(y_test, y_pred, average=\x27weighted\x27, zero_division=0)",
   withNl "print(f\"Accuracy:  \x7baccuracy:.4f\x7d\")",
   withNl "print(f\"Precision: \x7bprecision:.4f\x7d\")",
   withNl "print(f\"Recall:    \x7brecall:.4f\x7d\")",
   withNl "print(f\"F1 Score:  \x7bf1:.4f\x7d\")",
   withNl "mse = mean_squared_error(y_test, y_pred)",
   withNl "mae = mean_absolute_error(y_test, y_pred)",
   withNl "r2 = r2_score(y_test, y_pred)",
   withNl "print(f\"MSE: \x7bmse:.4f\x7d\")",
   withNl "print(f\"MAE: \x7bmae:.4f\x7d\")",
   withNl "print(f\"R2:  \x7br2:.4f\x7d\")"]

/-- Concrete segments (whole lines) of the fixed header. -/
def headerSegs : List (List Char) := headerLines.map withNl

/-- The concrete segments of the template a block type renders. -/
def tmplSegsOf : String → List (List Char)
  | "dataset" => datasetSegs
  | "split" => splitSegs
  | "model" => modelSegs
  | "trainer" => trainerSegs
  | "metrics" => metricsSegs
  | _ => []

/-- The lookback state after rendering a list of blocks. -/
def taskFold : List Node → String → String
  | [], t => t
  | n :: rest, t => taskFold rest (blockLines n t).2

/-- Successful runs of the visit only grow the visited set, visit every
member of the work list, and only append to the output. -/
theorem dfsL_mono (inps : String → List String) (isNode : String → Bool) :
    ∀ (fuel : Nat) (stack : List String) (s s' : DfsSt),
      dfsL inps isNode fuel stack s = some s' →
      (∀ x ∈ s.visited, x ∈ s'.visited)
      ∧ (∀ v ∈ stack, v ∈ s'.visited)
      ∧ (∃ d, s'.out = s.out ++ d) := by
  intro fuel
  induction fuel with
  | zero =>
      intro stack s s' h
      cases stack with
      | nil =>
          simp only [dfsL, Option.some.injEq] at h
          subst h
          exact ⟨fun x hx => hx, by simp, [], by simp⟩
      | cons v rest => simp [dfsL] at h
  | succ fuel ih =>
      intro stack s s' h
      cases stack with
      | nil =>
          simp only [dfsL, Option.some.injEq] at h
          subst h
          exact ⟨fun x hx => hx, by simp, [], by simp⟩
      | cons v rest =>
          simp only [dfsL] at h
          by_cases hv : v ∈ s.visited
          · rw [if_pos hv] at h
            rcases ih rest s s' h with ⟨h1, h2, h3⟩
            refine ⟨h1, ?_, h3⟩
            intro w hw
            rcases List.mem_cons.mp hw with hw | hw
            · exact hw ▸ h1 v hv
            · exact h2 w hw
          · rw [if_neg hv] at h
            cases heq : dfsL inps isNode fuel (inps v) ⟨v :: s.visited, s.out⟩ with
            | none => rw [heq] at h; cases h
            | some s2 =>
                rw [heq] at h
                rcases ih (inps v) _ _ heq with ⟨m1, _, d1, hd1⟩
                rcases ih rest _ _ h with ⟨n1, n2, d2, hd2⟩
                have hvs2 : v ∈ s2.visited := m1 v (List.mem_cons_self v _)
                have hmono : ∀ x ∈ s.visited, x ∈ s'.visited := by
                  intro x hx
                  exact n1 x (m1 x (List.mem_cons_of_mem _ hx))
                refine ⟨hmono, ?_, ?_⟩
                · intro w hw
                  rcases List.mem_cons.mp hw with hw | hw
                  · exact hw ▸ n1 v hvs2
                  · exact n2 w hw
                · refine ⟨(if isNode v then d1 ++ [v] else d1) ++ d2, ?_⟩
                  rw [hd2]
                  by_cases hnv : isNode v
                  · simp only [hnv, if_pos, hd1]
                    simp
                  · simp only [hnv, if_neg, hd1]
                    simp

/-- Fuel sufficiency: as soon as the fuel is at least the number of ids
of the finite universe not yet visited, the visit completes.  Each fuel
unit is spent only when a fresh vertex is marked, and the universe bounds
the number of fresh vertices. -/
theorem dfsL_fuel (inps : String → List String) (isNode : String → Bool)
    (univ : Finset String)
    (hinps : ∀ x, ∀ y ∈ inps x, y ∈ univ) :
    ∀ (fuel : Nat) (stack : List String) (s : DfsSt),
      (∀ v ∈ stack, v ∈ univ) →
      (∀ v ∈ s.visited, v ∈ univ) →
      stack.length +
        ((univ \ s.visited.toFinset).sum (fun i => 1 + (inps i).length)) ≤ fuel →
      ∃ s', dfsL inps isNode fuel stack s = some s'
        ∧ (∀ v ∈ s'.visited, v ∈ univ) := by
  intro fuel
  induction fuel with
  | zero =>
      intro stack s _ hvis hb
      cases stack with
      | nil => exact ⟨s, by simp [dfsL], hvis⟩
      | cons v rest => simp at hb
  | succ fuel ih =>
      intro stack s hstack hvis hb
      cases stack with
      | nil => exact ⟨s, by simp [dfsL], hvis⟩
      | cons v rest =>
          by_cases hv : v ∈ s.visited
          · have hb2 : rest.length +
                ((univ \ s.visited.toFinset).sum
                  (fun i => 1 + (inps i).length)) ≤ fuel := by
              simp only [List.length_cons] at hb
              omega
            rcases ih rest s (fun w hw => hstack w (List.mem_cons_of_mem _ hw))
              hvis hb2 with ⟨s', hs', hu⟩
            exact ⟨s', by simp only [dfsL, if_pos hv]; exact hs', hu⟩
          · have hvu : v ∈ univ := hstack v (List.mem_cons_self v _)
            have hvm : v ∈ univ \ s.visited.toFinset := by
              refine Finset.mem_sdiff.mpr ⟨hvu, ?_⟩
              simpa using hv
            have hsum : 1 + (inps v).length +
                ((univ \ s.visited.toFinset).erase v).sum
                  (fun i => 1 + (inps i).length)
                = (univ \ s.visited.toFinset).sum
                  (fun i => 1 + (inps i).length) := by
              simpa using
                Finset.add_sum_erase _ (fun i => 1 + (inps i).length) hvm
            have herase : univ \ (v :: s.visited).toFinset
                = (univ \ s.visited.toFinset).erase v := by
              rw [List.toFinset_cons, Finset.sdiff_insert]
            have hb1 : (inps v).length +
                ((univ \ (v :: s.visited).toFinset).sum
                  (fun i => 1 + (inps i).length)) ≤ fuel := by
              rw [herase]
              simp only [List.length_cons] at hb
              omega
            rcases ih (inps v) ⟨v :: s.visited, s.out⟩ (hinps v)
              (by
                intro w hw
                rcases List.mem_cons.mp hw with hw | hw
                · exact hw ▸ hvu
                · exact hvis w hw)
              hb1 with ⟨s2, heq2, hu2⟩
            have hmono := (dfsL_mono inps isNode fuel (inps v) _ _ heq2).1
            have hsub : univ \ s2.visited.toFinset ⊆
                univ \ (v :: s.visited).toFinset := by
              intro x hx
              rcases Finset.mem_sdiff.mp hx with ⟨hx1, hx2⟩
              refine Finset.mem_sdiff.mpr ⟨hx1, fun hc => hx2 ?_⟩
              exact List.mem_toFinset.mpr (hmono x (List.mem_toFinset.mp hc))
            have hble : (univ \ s2.visited.toFinset).sum
                  (fun i => 1 + (inps i).length)
                ≤ (univ \ (v :: s.visited).toFinset).sum
                  (fun i => 1 + (inps i).length) := by
              refine Finset.sum_le_sum_of_subset hsub
            have hb2 : rest.length +
                ((univ \ s2.visited.toFinset).sum
                  (fun i => 1 + (inps i).length)) ≤ fuel := by
              rw [herase] at hble
              simp only [List.length_cons] at hb
              omega
            rcases ih rest
              ⟨s2.visited, if isNode v then s2.out ++ [v] else s2.out⟩
              (fun w hw => hstack w (List.mem_cons_of_mem _ hw)) hu2
              hb2 with ⟨s3, heq3, hu3⟩
            refine ⟨s3, ?_, hu3⟩
            simp only [dfsL, if_neg hv]
            rw [heq2]
            exact heq3

theorem markInv (isNode : String → Bool) (vis out : List String)
    (v : String) (grey : List String)
    (hA : InvA isNode ⟨vis, out⟩ grey) (hv : v ∉ vis) :
    InvA isNode ⟨v :: vis, out⟩ (v :: grey) := by
  rcases hA with ⟨hnd, hmem⟩
  refine ⟨hnd, ?_⟩
  intro i
  constructor
  · intro hi
    rcases (hmem i).mp hi with ⟨h1, h2, h3⟩
    have hiv : i ≠ v := fun hc => hv (hc ▸ h1)
    exact ⟨List.mem_cons_of_mem _ h1, h2, by
      simp only [List.mem_cons, not_or]
      exact ⟨hiv, h3⟩⟩
  · rintro ⟨h1, h2, h3⟩
    simp only [List.mem_cons, not_or] at h3
    rcases List.mem_cons.mp h1 with h1 | h1
    · exact absurd h1 h3.1
    · exact (hmem i).mpr ⟨h1, h2, h3.2⟩

/-- Emitting a fully processed vertex moves it from the grey stack to the
output while preserving the state invariant. -/
theorem pushInv (isNode : String → Bool) (vis out : List String)
    (v : String) (grey : List String)
    (hA : InvA isNode ⟨vis, out⟩ (v :: grey))
    (hvv : v ∈ vis) (hvg : v ∉ grey) :
    InvA isNode ⟨vis, if isNode v then out ++ [v] else out⟩ grey := by
  rcases hA with ⟨hnd, hmem⟩
  have hvout : v ∉ out := by
    intro hc
    rcases (hmem v).mp hc with ⟨_, _, h3⟩
    exact h3 (List.mem_cons_self _ _)
  by_cases hnv : isNode v
  · simp only [hnv, if_pos]
    refine ⟨?_, ?_⟩
    · rw [List.nodup_append]
      exact ⟨hnd, List.nodup_singleton v,
        fun x hx hx2 => by
          rcases List.mem_singleton.mp hx2 with rfl
          exact hvout hx⟩
    · intro i
      constructor
      · intro hi
        rcases List.mem_append.mp hi with hi | hi
        · rcases (hmem i).mp hi with ⟨h1, h2, h3⟩
          exact ⟨h1, h2, fun hc => h3 (List.mem_cons_of_mem _ hc)⟩
        · rcases List.mem_singleton.mp hi with rfl
          exact ⟨hvv, hnv, hvg⟩
      · rintro ⟨h1, h2, h3⟩
        by_cases hiv : i = v
        · exact List.mem_append.mpr (Or.inr (by simp [hiv]))
        · refine List.mem_append.mpr (Or.inl ((hmem i).mpr ⟨h1, h2, ?_⟩))
          simp only [List.mem_cons, not_or]
          exact ⟨hiv, h3⟩
  · have hnv' : isNode v = false := by simpa using hnv
    simp only [hnv', Bool.false_eq_true, if_false]
    refine ⟨hnd, ?_⟩
    intro i
    constructor
    · intro hi
      rcases (hmem i).mp hi with ⟨h1, h2, h3⟩
      exact ⟨h1, h2, fun hc => h3 (List.mem_cons_of_mem _ hc)⟩
    · rintro ⟨h1, h2, h3⟩
      by_cases hiv : i = v
      · rw [hiv] at h2
        rw [h2] at hnv'
        cases hnv'
      · refine (hmem i).mpr ⟨h1, h2, ?_⟩
        simp only [List.mem_cons, not_or]
        exact ⟨hiv, h3⟩

/-- The state invariant is preserved by every successful run of the
visit (relative to any ghost grey stack contained in the visited set). -/
theorem dfsL_invA (inps : String → List String) (isNode : String → Bool) :
    ∀ (fuel : Nat) (stack : List String) (s s' : DfsSt) (grey : List String),
      dfsL inps isNode fuel stack s = some s' →
      (∀ g ∈ grey, g ∈ s.visited) →
      InvA isNode s grey →
      InvA isNode s' grey := by
  intro fuel
  induction fuel with
  | zero =>
      intro stack s s' grey h _ hA
      cases stack with
      | nil =>
          simp only [dfsL, Option.some.injEq] at h
          exact h ▸ hA
      | cons v rest => simp [dfsL] at h
  | succ fuel ih =>
      intro stack s s' grey h hg hA
      cases stack with
      | nil =>
          simp only [dfsL, Option.some.injEq] at h
          exact h ▸ hA
      | cons v rest =>
          simp only [dfsL] at h
          by_cases hv : v ∈ s.visited
          · rw [if_pos hv] at h
            exact ih rest s s' grey h hg hA
          · rw [if_neg hv] at h
            cases heq : dfsL inps isNode fuel (inps v) ⟨v :: s.visited, s.out⟩ with
            | none => rw [heq] at h; cases h
            | some s2 =>
                rw [heq] at h
                have hA1 : InvA isNode ⟨v :: s.visited, s.out⟩ (v :: grey) := by
                  cases s with
                  | mk vis out => exact markInv isNode vis out v grey hA hv
                have hg1 : ∀ g ∈ v :: grey, g ∈ (v :: s.visited) := by
                  intro g hgm
                  rcases List.mem_cons.mp hgm with hgm | hgm
                  · exact hgm ▸ List.mem_cons_self _ _
                  · exact List.mem_cons_of_mem _ (hg g hgm)
                have hA2 : InvA isNode s2 (v :: grey) :=
                  ih (inps v) _ _ _ heq hg1 hA1
                have hmono := (dfsL_mono inps isNode fuel (inps v) _ _ heq).1
                have hvv2 : v ∈ s2.visited := hmono v (List.mem_cons_self _ _)
                have hvg : v ∉ grey := fun hc => hv (hg v hc)
                have hA3 : InvA isNode
                    ⟨s2.visited, if isNode v then s2.out ++ [v] else s2.out⟩
                    grey := by
                  cases s2 with
                  | mk vis2 out2 => exact pushInv isNode vis2 out2 v grey hA2 hvv2 hvg
                refine ih rest _ _ _ h ?_ hA3
                intro g hgm
                exact hmono g (List.mem_cons_of_mem _ (hg g hgm))

/-- Appending to the output preserves precedence facts. -/
theorem before_append (u t : String) (l d : List String)
    (h : Before u t l) : Before u t (l ++ d) := by
  rcases h with ⟨l₁, l₂, rfl, hu⟩
  exact ⟨l₁, l₂ ++ d, by simp, hu⟩

/-- On acyclic dependency relations the visit maintains the topological
invariant: every emitted vertex is preceded by all of its node-inputs. -/
theorem dfsL_invT (inps : String → List String) (isNode : String → Bool)
    (r : String → String → Prop)
    (hr : ∀ u w, u ∈ inps w → r u w)
    (hacy : ∀ a, ¬ Relation.TransGen r a a) :
    ∀ (fuel : Nat) (stack : List String) (s s' : DfsSt) (grey : List String),
      dfsL inps isNode fuel stack s = some s' →
      (∀ w ∈ stack, ∀ g ∈ grey, Relation.ReflTransGen r w g) →
      (∀ g ∈ grey, g ∈ s.visited) →
      InvA isNode s grey →
      InvT inps isNode s →
      InvT inps isNode s' := by
  intro fuel
  induction fuel with
  | zero =>
      intro stack s s' grey h _ _ _ hT
      cases stack with
      | nil =>
          simp only [dfsL, Option.some.injEq] at h
          exact h ▸ hT
      | cons v rest => simp [dfsL] at h
  | succ fuel ih =>
      intro stack s s' grey h hgs hg hA hT
      cases stack with
      | nil =>
          simp only [dfsL, Option.some.injEq] at h
          exact h ▸ hT
      | cons v rest =>
          simp only [dfsL] at h
          by_cases hv : v ∈ s.visited
          · rw [if_pos hv] at h
            exact ih rest s s' grey h
              (fun w hw => hgs w (List.mem_cons_of_mem _ hw)) hg hA hT
          · rw [if_neg hv] at h
            cases heq : dfsL inps isNode fuel (inps v) ⟨v :: s.visited, s.out⟩ with
            | none => rw [heq] at h; cases h
            | some s2 =>
                rw [heq] at h
                have hA1 : InvA isNode ⟨v :: s.visited, s.out⟩ (v :: grey) := by
                  cases s with
                  | mk vis out => exact markInv isNode vis out v grey hA hv
                have hg1 : ∀ g ∈ v :: grey, g ∈ (v :: s.visited) := by
                  intro g hgm
                  rcases List.mem_cons.mp hgm with hgm | hgm
                  · exact hgm ▸ List.mem_cons_self _ _
                  · exact List.mem_cons_of_mem _ (hg g hgm)
                have hgs1 : ∀ w ∈ inps v, ∀ g ∈ v :: grey,
                    Relation.ReflTransGen r w g := by
                  intro w hw g hgm
                  rcases List.mem_cons.mp hgm with hgm | hgm
                  · exact hgm ▸ Relation.ReflTransGen.single (hr w v hw)
                  · exact (Relation.ReflTransGen.single (hr w v hw)).trans
                      (hgs v (List.mem_cons_self _ _) g hgm)
                have hT1 : InvT inps isNode ⟨v :: s.visited, s.out⟩ := hT
                have hT2 : InvT inps isNode s2 :=
                  ih (inps v) _ _ _ heq hgs1 hg1 hA1 hT1
                have hA2 : InvA isNode s2 (v :: grey) :=
                  dfsL_invA inps isNode fuel (inps v) _ _ _ heq hg1 hA1
                have hmonos := dfsL_mono inps isNode fuel (inps v) _ _ heq
                have hvv2 : v ∈ s2.visited :=
                  hmonos.1 v (List.mem_cons_self _ _)
                have hvg : v ∉ grey := fun hc => hv (hg v hc)
                have hT3 : InvT inps isNode
                    ⟨s2.visited, if isNode v then s2.out ++ [v] else s2.out⟩ := by
                  by_cases hnv : isNode v
                  · simp only [hnv, if_pos]
                    intro t ht u hu hnu
                    rcases List.mem_append.mp ht with ht | ht
                    · exact before_append u t s2.out [v] (hT2 t ht u hu hnu)
                    · have htv : t = v := List.mem_singleton.mp ht
                      subst htv
                      have huvis : u ∈ s2.visited :=
                        hmonos.2.1 u hu
                      have hunotgrey : u ∉ t :: grey := by
                        intro hc
                        rcases List.mem_cons.mp hc with hc | hc
                        · subst hc
                          exact hacy u (Relation.TransGen.single (hr u u hu))
                        · exact hacy u (Relation.TransGen.head'
                            (hr u t hu)
                            (hgs t (List.mem_cons_self _ _) u hc))
                      have huout : u ∈ s2.out :=
                        (hA2.2 u).mpr ⟨huvis, hnu, hunotgrey⟩
                      exact ⟨s2.out, [], rfl, huout⟩
                  · have hnv2 : isNode v = false := by simpa using hnv
                    simp only [hnv2, Bool.false_eq_true, if_false]
                    exact hT2
                have hA3 : InvA isNode
                    ⟨s2.visited, if isNode v then s2.out ++ [v] else s2.out⟩
                    grey := by
                  cases s2 with
                  | mk vis2 out2 => exact pushInv isNode vis2 out2 v grey hA2 hvv2 hvg
                refine ih rest _ _ _ h
                  (fun w hw => hgs w (List.mem_cons_of_mem _ hw)) ?_ hA3 hT3
                intro g hgm
                exact hmonos.1 g (List.mem_cons_of_mem _ (hg g hgm))

/-- `nodeMap.get` succeeds exactly on the ids of the node list. -/
theorem isNodeId_iff (nodes : List Node) (i : String) :
    isNodeId nodes i = true ↔ i ∈ nodes.map (fun n => n.id) := by
  simp only [isNodeId, nodeGet, List.find?_isSome, List.mem_reverse,
    List.mem_map, decide_eq_true_eq]

/-- Membership in the inputs index is exactly the edge-dependency step. -/
theorem mem_inputsOf (edges : List Edge) (u w : String) :
    u ∈ inputsOf edges w ↔ edgeStep edges u w := by
  simp only [inputsOf, List.mem_map, List.mem_filter, decide_eq_true_eq,
    edgeStep]
  constructor
  · rintro ⟨e, ⟨he, ht⟩, hs⟩
    exact ⟨e, he, hs, ht⟩
  · rintro ⟨e, he, hs, ht⟩
    exact ⟨e, ⟨he, ht⟩, hs⟩

/-- The complete run always succeeds (the fuel bound is sufficient), its
output has no duplicates, and it contains exactly the ids of the node
list. -/
theorem topoRun_spec (nodes : List Node) (edges : List Edge) :
    ∃ st, topoRun nodes edges = some st
      ∧ st.out.Nodup
      ∧ (∀ i, i ∈ st.out ↔ i ∈ nodes.map (fun n => n.id)) := by
  have hinps : ∀ x, ∀ y ∈ inputsOf edges x,
      y ∈ (graphIds nodes edges).toFinset := by
    intro x y hy
    rcases (mem_inputsOf edges y x).mp hy with ⟨e, he, hs, _⟩
    refine List.mem_toFinset.mpr (List.mem_dedup.mpr ?_)
    refine List.mem_append.mpr (Or.inr ?_)
    exact List.mem_flatMap.mpr ⟨e, he, by simp [hs]⟩
  have hstack : ∀ v ∈ nodes.map (fun n => n.id),
      v ∈ (graphIds nodes edges).toFinset := by
    intro v hv
    exact List.mem_toFinset.mpr (List.mem_dedup.mpr (List.mem_append.mpr
      (Or.inl hv)))
  have hbound : (nodes.map (fun n => n.id)).length +
      (((graphIds nodes edges).toFinset \
        ([] : List String).toFinset).sum
          (fun i => 1 + (inputsOf edges i).length)) ≤
      fuelBound nodes edges := by
    have h1 : ((graphIds nodes edges).toFinset \
        ([] : List String).toFinset) = (graphIds nodes edges).toFinset := by
      simp
    rw [h1]
    simp only [graphIds]
    rw [List.sum_toFinset _ (List.nodup_dedup _)]
    simp [fuelBound, graphIds]
  rcases dfsL_fuel (inputsOf edges) (isNodeId nodes)
      (graphIds nodes edges).toFinset hinps (fuelBound nodes edges)
      (nodes.map (fun n => n.id)) ⟨[], []⟩ hstack (by simp) hbound
    with ⟨st, heq, _⟩
  have hA : InvA (isNodeId nodes) st [] := by
    refine dfsL_invA (inputsOf edges) (isNodeId nodes) _ _ _ _ _ heq
      (by simp) ⟨List.nodup_nil, ?_⟩
    intro i
    simp
  have hstackvis := (dfsL_mono (inputsOf edges) (isNodeId nodes) _ _ _ _ heq).2.1
  refine ⟨st, heq, hA.1, ?_⟩
  intro i
  constructor
  · intro hi
    rcases (hA.2 i).mp hi with ⟨_, hn, _⟩
    exact (isNodeId_iff nodes i).mp hn
  · intro hi
    refine (hA.2 i).mpr ⟨hstackvis i hi, (isNodeId_iff nodes i).mpr hi, by simp⟩

/-- An element listed before a later element has a smaller index
(provided the later element does not occur earlier). -/
theorem indexOf_lt_of_before :
    ∀ (l₁ l₂ : List String) (u t : String),
      u ∈ l₁ → t ∉ l₁ →
      (l₁ ++ t :: l₂).indexOf u < (l₁ ++ t :: l₂).indexOf t := by
  intro l₁
  induction l₁ with
  | nil =>
      intro l₂ u t hu _
      cases hu
  | cons a l₁ ih =>
      intro l₂ u t hu htn
      have hta : a ≠ t := fun hc => htn (by rw [hc]; exact List.mem_cons_self _ _)
      by_cases hua : a = u
      · rw [List.cons_append, List.indexOf_cons_eq _ hua,
          List.indexOf_cons_ne _ hta]
        exact Nat.succ_pos _
      · have hu2 : u ∈ l₁ := by
          rcases List.mem_cons.mp hu with h | h
          · exact absurd h.symm hua
          · exact h
        rw [List.cons_append, List.indexOf_cons_ne _ hua,
          List.indexOf_cons_ne _ hta]
        exact Nat.succ_lt_succ
          (ih l₂ u t hu2 (fun hc => htn (List.mem_cons_of_mem _ hc)))

/-- `Before` plus no-duplicates gives a strict index inequality. -/
theorem before_indexOf (l : List String) (u t : String) (hnd : l.Nodup)
    (h : Before u t l) : l.indexOf u < l.indexOf t := by
  rcases h with ⟨l₁, l₂, rfl, hu⟩
  have htn : t ∉ l₁ := by
    intro hc
    rcases List.nodup_append.mp hnd with ⟨_, _, hdisj⟩
    exact hdisj hc (List.mem_cons_self _ _)
  exact indexOf_lt_of_before l₁ l₂ u t hu htn

/-- A rank function strictly increasing along edges witnesses
acyclicity. -/
theorem acyclic_of_rank (edges : List Edge) (f : String → Nat)
    (hf : ∀ a b, edgeStep edges a b → f a < f b) : Acyclic edges := by
  intro a hc
  have key : ∀ x y, Relation.TransGen (edgeStep edges) x y → f x < f y := by
    intro x y h
    induction h with
    | single h1 => exact hf _ _ h1
    | tail _ h2 ih => exact lt_trans ih (hf _ _ h2)
  exact lt_irrefl _ (key a a hc)

/-! ## Claim C10: the visit terminates and emits each node exactly once -/

/-- C10: for every graph with well-formed (duplicate-free) node ids,
including cyclic and diamond-shaped graphs, the depth-first visit
completes within its computable fuel bound (the JavaScript recursion
terminates), and the `sorted` output contains each node's id exactly
once, contains nothing else, and is a permutation of the node ids: the
visited set is extended before recursing, so no node is emitted twice
and no input chain is re-traversed. -/
theorem C10_visit_each_node_once (nodes : List Node) (edges : List Edge)
    (hnd : (nodes.map (fun n => n.id)).Nodup) :
    (topoRun nodes edges).isSome = true
    ∧ (∀ n ∈ nodes, (topoIds nodes edges).count n.id = 1)
    ∧ (∀ i ∈ topoIds nodes edges, i ∈ nodes.map (fun n => n.id))
    ∧ (topoIds nodes edges).Perm (nodes.map (fun n => n.id)) := by
  rcases topoRun_spec nodes edges with ⟨st, heq, hnodup, hmem⟩
  have hout : topoIds nodes edges = st.out := by
    simp [topoIds, heq]
  refine ⟨by simp [heq], ?_, ?_, ?_⟩
  · intro n hn
    rw [hout]
    exact List.count_eq_one_of_mem hnodup
      ((hmem n.id).mpr (List.mem_map.mpr ⟨n, hn, rfl⟩))
  · intro i hi
    rw [hout] at hi
    exact (hmem i).mp hi
  · rw [hout]
    exact (List.perm_ext_iff_of_nodup hnodup hnd).mpr hmem

/-- Witness for C10 at a concrete diamond graph
(`a → b`, `a → c`, `b → d`, `c → d`): the id hypothesis holds and the
diamond join is emitted exactly once. -/
theorem C10_visit_each_node_once_witness :
    (([ { id := "a", data := { blockType := "dataset", params := [] } },
        { id := "b", data := { blockType := "split", params := [] } },
        { id := "c", data := { blockType := "model", params := [] } },
        { id := "d", data := { blockType := "trainer", params := [] } }
      ] : List Node).map (fun n => n.id)).Nodup
    ∧ (∀ n ∈ ([ { id := "a", data := { blockType := "dataset", params := [] } },
        { id := "b", data := { blockType := "split", params := [] } },
        { id := "c", data := { blockType := "model", params := [] } },
        { id := "d", data := { blockType := "trainer", params := [] } }
      ] : List Node),
        (topoIds [ { id := "a", data := { blockType := "dataset", params := [] } },
          { id := "b", data := { blockType := "split", params := [] } },
          { id := "c", data := { blockType := "model", params := [] } },
          { id := "d", data := { blockType := "trainer", params := [] } } ]
          [ { id := "e1", source := "a", target := "b" },
            { id := "e2", source := "a", target := "c" },
            { id := "e3", source := "b", target := "d" },
            { id := "e4", source := "c", target := "d" } ]).count n.id = 1) := by
  refine ⟨by decide, ?_⟩
  exact (C10_visit_each_node_once _ _ (by decide)).2.1

/-! ## Claim C1: the visit order is topological on acyclic graphs -/

/-- C1: for every acyclic graph, the dependency-ordered sequence built by
`visit` is a valid topological order: for every edge whose endpoints both
appear in the output, the source appears strictly before the target. -/
theorem C1_topological_order (nodes : List Node) (edges : List Edge)
    (hacy : Acyclic edges) (e : Edge) (he : e ∈ edges)
    (hs : e.source ∈ topoIds nodes edges)
    (ht : e.target ∈ topoIds nodes edges) :
    (topoIds nodes edges).indexOf e.source <
      (topoIds nodes edges).indexOf e.target := by
  rcases topoRun_spec nodes edges with ⟨st, heq, hnodup, hmem⟩
  have hout : topoIds nodes edges = st.out := by
    simp [topoIds, heq]
  have heqd : dfsL (inputsOf edges) (isNodeId nodes) (fuelBound nodes edges)
      (nodes.map (fun n => n.id)) ⟨[], []⟩ = some st := heq
  have hT : InvT (inputsOf edges) (isNodeId nodes) st := by
    refine dfsL_invT (inputsOf edges) (isNodeId nodes) (edgeStep edges)
      (fun u w hu => (mem_inputsOf edges u w).mp hu) hacy
      (fuelBound nodes edges) (nodes.map (fun n => n.id)) ⟨[], []⟩ st []
      heqd (by simp) (by simp) ⟨List.nodup_nil, by intro i; simp⟩ ?_
    intro t htm
    cases htm
  rw [hout] at hs ht ⊢
  have hsin : e.source ∈ inputsOf edges e.target :=
    (mem_inputsOf edges e.source e.target).mpr ⟨e, he, rfl, rfl⟩
  have hsnode : isNodeId nodes e.source = true := by
    rcases topoRun_spec nodes edges with _
    exact (isNodeId_iff nodes e.source).mpr ((hmem e.source).mp hs)
  have hbefore : Before e.source e.target st.out :=
    hT e.target ht e.source hsin hsnode
  exact before_indexOf st.out e.source e.target hnodup hbefore

/-- Witness for C1: the chain `a → b` is acyclic (a rank function
witnesses it) and the compiled order places `a` before `b`. -/
theorem C1_topological_order_witness :
    Acyclic [ { id := "e1", source := "a", target := "b" } ]
    ∧ (topoIds [ { id := "a", data := { blockType := "dataset", params := [] } },
        { id := "b", data := { blockType := "split", params := [] } } ]
        [ { id := "e1", source := "a", target := "b" } ]).indexOf "a" <
      (topoIds [ { id := "a", data := { blockType := "dataset", params := [] } },
        { id := "b", data := { blockType := "split", params := [] } } ]
        [ { id := "e1", source := "a", target := "b" } ]).indexOf "b" := by
  have hacy : Acyclic [ { id := "e1", source := "a", target := "b" } ] := by
    refine acyclic_of_rank _ (fun i => if i = "a" then 0 else 1) ?_
    rintro a b ⟨e, he, hsrc, htgt⟩
    simp only [List.mem_singleton] at he
    subst he
    simp only at hsrc htgt
    rw [← hsrc, ← htgt]
    decide
  refine ⟨hacy, ?_⟩
  exact C1_topological_order _ _ hacy
    { id := "e1", source := "a", target := "b" } (by decide)
    (by decide) (by decide)

/-- C2 counterexample: on the 2-block mutual edge pair the compilation
does not fail at all — no `CyclicGraphError` exists anywhere in the code
(the `visit` function marks a node visited before recursing, so the
revisit returns silently) — and the run returns normally with the order
`["b", "a"]`, which necessarily violates one of the two cyclic edges.
This refutes the claim that compiling such a graph fails with a
`CyclicGraphError`. -/
theorem C2_counterexample :
    (topoRun [ { id := "a", data := { blockType := "model", params := [] } },
        { id := "b", data := { blockType := "trainer", params := [] } } ]
      cycEdges).isSome = true
    ∧ topoIds [ { id := "a", data := { blockType := "model", params := [] } },
        { id := "b", data := { blockType := "trainer", params := [] } } ]
      cycEdges = ["b", "a"] := by
  constructor <;> rfl

/-- C2 (amended): for every pair of blocks with ids `a`, `b` (any block
data) connected by a mutual edge pair, compilation terminates without
error and emits both blocks exactly once — but no `CyclicGraphError` is
raised: the code has no cycle detection, and the silently produced order
`["b", "a"]` places the source of the edge `a → b` after its target. -/
theorem C2_cycle_no_error (da db : NodeData) :
    (topoRun [ { id := "a", data := da }, { id := "b", data := db } ]
      cycEdges).isSome = true
    ∧ topoIds [ { id := "a", data := da }, { id := "b", data := db } ]
      cycEdges = ["b", "a"] := by
  constructor <;> rfl

/-- C6 counterexample: the second `serializePipeline` variant includes a
block that participates in no edge, so the claimed "included iff
connected" equivalence fails on it: the orphan block is in the output
while `participatesB` is `false`. -/
theorem C6_counterexample :
    (serializePipelineAll [orphanNode] []).map SerializedBlockFull.id
      = ["orphan"]
    ∧ participatesB "orphan" [] = false := by
  constructor <;> rfl

/-- C6 (amended): the connectivity-filtering `serializePipeline` contains
a block if and only if that block participates in at least one edge:
every output block participates, and every participating node occurs in
the output. -/
theorem C6_filtering_iff (nodes : List Node) (edges : List Edge) :
    (∀ b ∈ serializePipeline nodes edges, participatesB b.id edges = true)
    ∧ (∀ n ∈ nodes, participatesB n.id edges = true →
        ∃ b ∈ serializePipeline nodes edges, b.id = n.id) := by
  constructor
  · intro b hb
    rcases List.mem_map.mp hb with ⟨n, hn, hbn⟩
    rcases List.mem_filter.mp hn with ⟨_, hpart⟩
    simpa [← hbn, toSerialized] using hpart
  · intro n hn hp
    exact ⟨toSerialized edges n,
      List.mem_map.mpr ⟨n, List.mem_filter.mpr ⟨hn, hp⟩, rfl⟩, rfl⟩

/-- Witness for C6: a concrete two-node graph with one edge; both
directions of the amended equivalence are exercised at it. -/
theorem C6_filtering_iff_witness :
    (∀ b ∈ serializePipeline [orphanNode,
        { id := "a", data := { blockType := "split", params := [] } },
        { id := "b", data := { blockType := "model", params := [] } }]
        [{ id := "e1", source := "a", target := "b" }],
      participatesB b.id [{ id := "e1", source := "a", target := "b" }] = true)
    ∧ (∀ n ∈ [orphanNode,
        { id := "a", data := { blockType := "split", params := [] } },
        { id := "b", data := { blockType := "model", params := [] } }],
        participatesB n.id [{ id := "e1", source := "a", target := "b" }] = true →
        ∃ b ∈ serializePipeline [orphanNode,
          { id := "a", data := { blockType := "split", params := [] } },
          { id := "b", data := { blockType := "model", params := [] } }]
          [{ id := "e1", source := "a", target := "b" }], b.id = n.id) :=
  C6_filtering_iff _ _

/-! ## Claim C7: the reconciler creates at most once -/

/-- Once a session identity is bound, no later reconciliation ever issues
`create`: from a `some` state every call is `update`. -/
theorem saveRun_bound_no_create (id : String)
    (trace : List (List Node × List Edge × String)) :
    (saveRun (some id) trace).2.countP (fun c => c.isCreate) = 0 := by
  induction trace generalizing id with
  | nil => rfl
  | cons step rest ih =>
      obtain ⟨ns, es, fid⟩ := step
      have h : (ns.isEmpty && es.isEmpty && (Option.isNone (some id))) = false := by
        simp
      simp only [saveRun, saveStep, h, Bool.false_eq_true, if_false]
      rw [List.countP_append, ih id, Nat.add_zero]
      rfl

/-- C7: across a whole editing session started with no bound identity,
the reconciler issues `create` at most once; after the state is bound it
only issues `update` (second conjunct); an empty graph with no bound
identity performs no persistence call at all, and a create binds the
freshly returned identity (last conjunct). -/
theorem C7_create_at_most_once
    (trace : List (List Node × List Edge × String)) (freshId : String) :
    (saveRun none trace).2.countP (fun c => c.isCreate) ≤ 1
    ∧ (∀ id trace2,
        (saveRun (some id) trace2).2.countP (fun c => c.isCreate) = 0)
    ∧ saveStep none [] [] freshId = (none, none)
    ∧ (∀ ns es, (ns ≠ [] ∨ es ≠ []) →
        saveStep none ns es freshId = (some freshId, some .create)) := by
  refine ⟨?_, fun id t2 => saveRun_bound_no_create id t2, rfl, ?_⟩
  · induction trace with
    | nil => simp [saveRun]
    | cons step rest ih =>
        obtain ⟨ns, es, fid⟩ := step
        simp only [saveRun, saveStep]
        by_cases h : ns.isEmpty && es.isEmpty
        · simp only [h, Option.isNone_none, Bool.and_true, if_pos]
          simpa using ih
        · have h2 : (ns.isEmpty && es.isEmpty &&
              (Option.isNone (none : Option String))) = false := by
            simpa using h
          simp only [saveRun, saveStep, h2, Bool.false_eq_true, if_false]
          rw [List.countP_append, saveRun_bound_no_create fid rest, Nat.add_zero]
          simp [PCall.isCreate]
  · intro ns es h
    have hne : (ns.isEmpty && es.isEmpty && Option.isNone (none : Option String)) = false := by
      cases ns with
      | nil =>
          cases es with
          | nil => rcases h with h | h <;> exact absurd rfl h
          | cons a t => rfl
      | cons a t => rfl
    simp only [saveStep, hne, Bool.false_eq_true, if_false]

/-! ## Claim C9: reset restores the artifact without touching the graph -/

/-- C9: for every panel state, `handleReset` replaces the displayed text
with the last-generated artifact, sets the sync state to `synced`, and
leaves the node list (Graph Model) completely unchanged (the handler
makes no node update call: the `nodes` component is carried over
verbatim). -/
theorem C9_reset_frame (s : PanelModel) :
    (handleReset s).nodes = s.nodes
    ∧ (handleReset s).code = s.lastGeneratedCode
    ∧ (handleReset s).syncStatus = .synced
    ∧ (handleReset s).lastGeneratedCode = s.lastGeneratedCode := by
  refine ⟨rfl, rfl, rfl, rfl⟩

/-! ## Claim C8: generation is deterministic -/

/-- C8: `generatePythonCode` is a pure function of its arguments — two
invocations on equal `(nodes, edges)` inputs produce identical text (the
embedding reads nothing but its arguments, mirroring the source, which
closes over no mutable state). -/
theorem C8_generation_deterministic (n1 : List Node) (e1 : List Edge)
    (n2 : List Node) (e2 : List Edge) (hn : n1 = n2) (he : e1 = e2) :
    generatePythonCode n1 e1 = generatePythonCode n2 e2 := by
  rw [hn, he]

/-- Witness for C8 at the canonical pipeline. -/
theorem C8_generation_deterministic_witness :
    generatePythonCode demoNodes demoEdges
      = generatePythonCode demoNodes demoEdges :=
  C8_generation_deterministic demoNodes demoEdges demoNodes demoEdges rfl rfl

/-! ## Claim C5: the apply path never parses into an error -/

/-- C5 counterexample: the claim's exemplar failing input — a non-numeric
value where the number marker is expected (`TEST_SIZE = abc`) — does NOT
throw and does NOT transition the sync state to `Error`: the marker
simply fails to match, nothing is extracted, the node list is returned
unchanged and the state becomes `Synced`. -/
theorem C5_counterexample :
    handleApplyChanges "TEST_SIZE = abc" [demoSplit]
      = ([demoSplit], SyncStatus.synced) := by
  decide

/-- C5 (amended): parsing is total — `parseCodeToConfig` never throws on
any input, so on "apply" the (possibly empty) patch set is always applied
and the sync state always returns to `Synced`; the `Error` transition in
the code (the `catch` branch) is unreachable from apply, and the node
list is only modified through the per-block-type patches. -/
theorem C5_apply_total_synced (code : String) (nodes : List Node) :
    (handleApplyChanges code nodes).2 = SyncStatus.synced
    ∧ (handleApplyChanges code nodes).1
      = nodes.map (applyTo (parseCodeToConfig code)) :=
  ⟨rfl, rfl⟩

/-! ## Claim C3 counterexample: the round trip is not always identity -/

/-- C3 counterexample: for the graph with the single dataset block whose
`file_path` is `""`, generating, parsing and applying changes the
marker-covered parameter `file_path` from `""` to the template default
`"path/to/data.csv"` (the generator's `||` default fires on the falsy
empty string, and the parser extracts the default back).  So
`apply(parse(generate(g)))` is not `g` on marker-covered fields for every
graph. -/
theorem C3_counterexample :
    ((handleApplyChanges (generatePythonCode [emptyPathNode] [])
        [emptyPathNode]).1.map
      (fun n => (nodeParams n).lookup "file_path"))
      = [some (JsVal.vstr "path/to/data.csv")]
    ∧ ([emptyPathNode].map (fun n => (nodeParams n).lookup "file_path"))
      = [some (JsVal.vstr "")] := by
  constructor
  · decide
  · decide

/-! ## Claim C4: applying a patch is a targeted per-block-type merge -/

/-- Lookup of a key absent from an association list stays absent after a
filter. -/
theorem lookup_filter_none (p : String × JsVal → Bool) (k : String) :
    ∀ patch : List (String × JsVal), patch.lookup k = none →
      (patch.filter p).lookup k = none := by
  intro patch
  induction patch with
  | nil => intro _; rfl
  | cons kv rest ih =>
      intro h
      obtain ⟨k1, v1⟩ := kv
      by_cases hk : k == k1
      · simp [List.lookup, hk] at h
      · simp only [List.lookup, hk] at h
        simp only [List.filter_cons]
        by_cases hp : p (k1, v1)
        · simp only [hp, if_pos]
          simp only [List.lookup, hk]
          exact ih h
        · simp only [hp, Bool.false_eq_true, if_false]
          exact ih h

/-- Lookup through a key-preserving value map. -/
theorem lookup_map_keyed (h : String → JsVal → JsVal) :
    ∀ (ps : List (String × JsVal)) (k : String),
      (ps.map (fun kv => (kv.1, h kv.1 kv.2))).lookup k
        = (ps.lookup k).map (h k) := by
  intro ps
  induction ps with
  | nil => intro k; rfl
  | cons kv rest ih =>
      intro k
      obtain ⟨k1, v1⟩ := kv
      by_cases hk : k == k1
      · have hk2 : k = k1 := by simpa using hk
        subst hk2
        simp [List.lookup]
      · simp only [List.map_cons, List.lookup, hk]
        exact ih k

/-- Lookup distributes over append, preferring the left list. -/
theorem lookup_append (k : String) :
    ∀ (a b : List (String × JsVal)),
      (a ++ b).lookup k
        = match a.lookup k with
          | some v => some v
          | none => b.lookup k := by
  intro a b
  induction a with
  | nil => rfl
  | cons kv rest ih =>
      obtain ⟨k1, v1⟩ := kv
      by_cases hk : k == k1
      · simp [List.lookup, hk]
      · simp only [List.cons_append, List.lookup, hk]
        exact ih

/-- Keys absent from the patch are untouched by the spread merge. -/
theorem lookup_mergeParams_of_not_in_patch
    (ps patch : List (String × JsVal)) (k : String)
    (h : patch.lookup k = none) :
    (mergeParams ps patch).lookup k = ps.lookup k := by
  have hmap : (ps.map (fun kv => (kv.1, (patch.lookup kv.1).getD kv.2))).lookup k
      = (ps.lookup k).map (fun v => (patch.lookup k).getD v) :=
    lookup_map_keyed (fun k1 v => (patch.lookup k1).getD v) ps k
  rw [mergeParams, lookup_append, hmap, h]
  cases hpk : ps.lookup k with
  | none =>
      exact lookup_filter_none _ k patch h
  | some v => rfl

/-- C4: `handleApplyChanges` performs a targeted per-block-type merge:
the node list is mapped through `applyTo`; a node whose block type has an
empty extracted config is returned unchanged; and every parameter key of
a patched node that is not a key of the extracted config keeps its
previous value. -/
theorem C4_targeted_merge (code : String) (nodes : List Node) :
    (handleApplyChanges code nodes).1
      = nodes.map (applyTo (parseCodeToConfig code))
    ∧ (∀ n : Node, patchFor (parseCodeToConfig code) n.data.blockType = [] →
        applyTo (parseCodeToConfig code) n = n)
    ∧ (∀ n : Node, ∀ k : String,
        (patchFor (parseCodeToConfig code) n.data.blockType).lookup k = none →
        ((applyTo (parseCodeToConfig code) n).data.params).lookup k
          = (n.data.params).lookup k) := by
  refine ⟨rfl, ?_, ?_⟩
  · intro n h
    simp [applyTo, h]
  · intro n k h
    by_cases hp : (patchFor (parseCodeToConfig code) n.data.blockType).isEmpty
    · simp [applyTo, hp]
    · simp only [applyTo, hp, Bool.false_eq_true, if_false]
      exact lookup_mergeParams_of_not_in_patch _ _ k h

/-- Witness for C4: applying an edit that touches only `TEST_SIZE` leaves
the split block's unrelated `shuffle` parameter at its previous value,
and leaves a node of an untouched block type unchanged. -/
theorem C4_targeted_merge_witness :
    (patchFor (parseCodeToConfig "TEST_SIZE = 0.5") "split").lookup "shuffle"
      = none
    ∧ ((applyTo (parseCodeToConfig "TEST_SIZE = 0.5") demoSplit).data.params).lookup "shuffle"
      = (demoSplit.data.params).lookup "shuffle"
    ∧ patchFor (parseCodeToConfig "TEST_SIZE = 0.5") "trainer" = []
    ∧ applyTo (parseCodeToConfig "TEST_SIZE = 0.5") ⟨"t", ⟨"trainer", []⟩⟩
      = ⟨"t", ⟨"trainer", []⟩⟩ := by
  refine ⟨by decide, ?_, by decide, ?_⟩
  · exact (C4_targeted_merge "TEST_SIZE = 0.5" [demoSplit]).2.2 demoSplit
      "shuffle" (by decide)
  · exact (C4_targeted_merge "TEST_SIZE = 0.5" []).2.1
      ⟨"t", ⟨"trainer", []⟩⟩ (by decide)

theorem isDigit_digitChar : ∀ d : Fin 10, isDigitCh (digitChar d.val) = true := by
  decide

theorem charToFin_digitChar : ∀ d : Fin 10, charToFin (digitChar d.val) = d := by
  decide

theorem digitChar_decode : ∀ d : Fin 10, (digitChar d.val).toNat - 48 = d.val := by
  decide

theorem isDigit_digitChar_lt (m : Nat) (h : m < 10) :
    isDigitCh (digitChar m) = true :=
  isDigit_digitChar ⟨m, h⟩

theorem charToFin_digitChar_lt (m : Nat) (h : m < 10) :
    charToFin (digitChar m) = ⟨m, h⟩ :=
  charToFin_digitChar ⟨m, h⟩

theorem digitChar_decode_lt (m : Nat) (h : m < 10) :
    (digitChar m).toNat - 48 = m :=
  digitChar_decode ⟨m, h⟩

theorem isDigitCh_ne_dash (c : Char) (h : isDigitCh c = true) :
    c ≠ '-' ∧ c ≠ '+' := by
  constructor
  · intro hc
    rw [hc] at h
    exact absurd h (by decide)
  · intro hc
    rw [hc] at h
    exact absurd h (by decide)

theorem digitsToNat_append_digit (a : List Char) (c : Char) :
    digitsToNat (a ++ [c]) = digitsToNat a * 10 + (c.toNat - 48) := by
  simp [digitsToNat, List.foldl_append]

theorem natDigitsAux_all_digits :
    ∀ (fuel n : Nat) (c : Char), c ∈ natDigitsAux fuel n → isDigitCh c = true := by
  intro fuel
  induction fuel with
  | zero => intro n c hc; cases hc
  | succ fuel ih =>
      intro n c hc
      simp only [natDigitsAux] at hc
      by_cases h : n < 10
      · rw [if_pos h] at hc
        rcases List.mem_singleton.mp hc with rfl
        exact isDigit_digitChar_lt n h
      · rw [if_neg h] at hc
        rcases List.mem_append.mp hc with hc | hc
        · exact ih (n / 10) c hc
        · rcases List.mem_singleton.mp hc with rfl
          exact isDigit_digitChar_lt (n % 10) (Nat.mod_lt _ (by omega))

theorem natDigits_all_digits (n : Nat) (c : Char) (hc : c ∈ natDigits n) :
    isDigitCh c = true :=
  natDigitsAux_all_digits (n + 1) n c hc

theorem natDigitsAux_ne_nil (fuel n : Nat) :
    natDigitsAux (fuel + 1) n ≠ [] := by
  simp only [natDigitsAux]
  by_cases h : n < 10
  · rw [if_pos h]
    exact List.cons_ne_nil _ _
  · rw [if_neg h]
    intro hc
    rcases List.append_eq_nil.mp hc with ⟨_, h2⟩
    exact List.cons_ne_nil _ _ h2

theorem natDigits_ne_nil (n : Nat) : natDigits n ≠ [] :=
  natDigitsAux_ne_nil n n

theorem digitsToNat_natDigitsAux :
    ∀ (fuel n : Nat), n < 10 ^ fuel →
      digitsToNat (natDigitsAux fuel n) = n := by
  intro fuel
  induction fuel with
  | zero =>
      intro n h
      simp only [pow_zero, Nat.lt_one_iff] at h
      subst h
      rfl
  | succ fuel ih =>
      intro n h
      simp only [natDigitsAux]
      by_cases h10 : n < 10
      · rw [if_pos h10]
        show 0 * 10 + ((digitChar n).toNat - 48) = n
        rw [digitChar_decode_lt n h10]
        omega
      · rw [if_neg h10]
        rw [digitsToNat_append_digit]
        have hdiv : n / 10 < 10 ^ fuel := by
          have h2 : n < 10 ^ fuel * 10 := by
            rw [pow_succ] at h
            exact h
          omega
        rw [ih (n / 10) hdiv, digitChar_decode_lt (n % 10) (Nat.mod_lt _ (by omega))]
        omega

theorem digitsToNat_natDigits (n : Nat) :
    digitsToNat (natDigits n) = n := by
  refine digitsToNat_natDigitsAux (n + 1) n ?_
  calc n < 10 ^ n := Nat.lt_pow_self (by norm_num) n
    _ ≤ 10 ^ (n + 1) := Nat.pow_le_pow_right (by norm_num) (Nat.le_succ n)

theorem fracChars_all_digits (l : List (Fin 10)) (c : Char)
    (hc : c ∈ fracChars l) : isDigitCh c = true := by
  rcases List.mem_map.mp hc with ⟨d, _, rfl⟩
  exact isDigit_digitChar d

theorem takeWhile_all_eq (p : Char → Bool) :
    ∀ l : List Char, (∀ c ∈ l, p c = true) →
      l.takeWhile p = l ∧ l.dropWhile p = [] := by
  intro l
  induction l with
  | nil => intro _; exact ⟨rfl, rfl⟩
  | cons c rest ih =>
      intro h
      have hc : p c = true := h c (List.mem_cons_self _ _)
      have hr := ih (fun x hx => h x (List.mem_cons_of_mem _ hx))
      constructor
      · simp [List.takeWhile_cons, hc, hr.1]
      · simp [List.dropWhile_cons, hc, hr.2]

theorem takeWhile_append_stop (p : Char → Bool) :
    ∀ (a : List Char) (c : Char) (b : List Char),
      (∀ x ∈ a, p x = true) → p c = false →
      (a ++ c :: b).takeWhile p = a ∧ (a ++ c :: b).dropWhile p = c :: b := by
  intro a
  induction a with
  | nil =>
      intro c b _ hc
      constructor
      · simp [List.takeWhile_cons, hc]
      · simp [List.dropWhile_cons, hc]
  | cons x a ih =>
      intro c b ha hc
      have hx : p x = true := ha x (List.mem_cons_self _ _)
      have hr := ih c b (fun y hy => ha y (List.mem_cons_of_mem _ hy)) hc
      constructor
      · simp [List.takeWhile_cons, hx, hr.1]
      · simp [List.dropWhile_cons, hx, hr.2]

theorem stripZeros_canon (l : List (Fin 10)) (h : fracCanonB l = true) :
    stripZeros l = l := by
  simp only [fracCanonB] at h
  cases hrev : l.reverse with
  | nil =>
      have : l = [] := by
        have := congrArg List.reverse hrev
        simpa using this
      simp [this, stripZeros]
  | cons d rest =>
      rw [hrev] at h
      simp only [Bool.not_eq_true'] at h
      have hl : l = (d :: rest).reverse := by
        have := congrArg List.reverse hrev
        simpa using this
      rw [stripZeros, hrev]
      rw [List.dropWhile_cons, h]
      simp [hl]

theorem charToFin_fracChars (l : List (Fin 10)) :
    (fracChars l).map charToFin = l := by
  simp only [fracChars, List.map_map]
  have : (charToFin ∘ fun d : Fin 10 => digitChar d.val) = id := by
    funext d
    exact charToFin_digitChar d
  rw [this, List.map_id]

theorem parseSign_digit (c : Char) (t : List Char) (h : isDigitCh c = true) :
    parseSign (c :: t) = (false, c :: t) := by
  rcases isDigitCh_ne_dash c h with ⟨h1, h2⟩
  simp [parseSign, h1, h2]

theorem parseFloat_round (i : Nat) (frac : List (Fin 10))
    (hc : fracCanonB frac = true) :
    parseFloatChars (jsNumToChars (.dec false i frac)) = .dec false i frac := by
  have hchars : jsNumToChars (.dec false i frac)
      = natDigits i ++ (if frac.isEmpty then [] else '.' :: fracChars frac) := by
    simp [jsNumToChars]
  cases hnd : natDigits i with
  | nil => exact absurd hnd (natDigits_ne_nil i)
  | cons c cs =>
      have hcdig : isDigitCh c = true :=
        natDigits_all_digits i c (by rw [hnd]; exact List.mem_cons_self _ _)
      by_cases hfe : frac.isEmpty
      · have hfrac : frac = [] := List.isEmpty_iff.mp hfe
        subst hfrac
        rw [hchars]
        simp only [List.isEmpty_nil, if_pos, List.append_nil]
        rw [parseFloatChars, hnd, parseSign_digit c cs hcdig]
        have hall := takeWhile_all_eq isDigitCh (c :: cs)
          (by rw [← hnd]; exact fun x hx => natDigits_all_digits i x hx)
        simp only [hall.1, hall.2]
        have hne : (c :: cs).isEmpty = false := rfl
        simp only [fracPart, hne]
        simp only [List.isEmpty_cons, Bool.false_and, Bool.false_eq_true,
          if_false]
        rw [← hnd, digitsToNat_natDigits]
        simp [stripZeros]
      · rw [hchars]
        simp only [hfe, Bool.false_eq_true, if_false]
        rw [parseFloatChars, hnd]
        simp only [List.cons_append]
        rw [parseSign_digit c (cs ++ '.' :: fracChars frac) hcdig]
        have hstop := takeWhile_append_stop isDigitCh (c :: cs) '.'
          (fracChars frac)
          (by rw [← hnd]; exact fun x hx => natDigits_all_digits i x hx)
          (by decide)
        simp only [← List.cons_append, hstop.1, hstop.2]
        have hfall := takeWhile_all_eq isDigitCh (fracChars frac)
          (fun x hx => fracChars_all_digits frac x hx)
        simp only [fracPart, hfall.1]
        have hie : (c :: cs).isEmpty = false := rfl
        simp only [hie, Bool.false_and, Bool.false_eq_true, if_false]
        rw [← hnd, digitsToNat_natDigits, charToFin_fracChars,
          stripZeros_canon frac hc]

theorem parseInt_round (n : Nat) :
    parseIntChars (natDigits n) = .dec false n [] := by
  cases hnd : natDigits n with
  | nil => exact absurd hnd (natDigits_ne_nil n)
  | cons c cs =>
      have hcdig : isDigitCh c = true :=
        natDigits_all_digits n c (by rw [hnd]; exact List.mem_cons_self _ _)
      rw [parseIntChars, parseSign_digit c cs hcdig]
      have hall := takeWhile_all_eq isDigitCh (c :: cs)
        (by rw [← hnd]; exact fun x hx => natDigits_all_digits n x hx)
      have hdn : digitsToNat (c :: cs) = n := by
        rw [← hnd, digitsToNat_natDigits]
      simp [hall.1, hdn]

theorem drop_append_le :
    ∀ (a b : List Char) (i : Nat), i ≤ a.length →
      (a ++ b).drop i = a.drop i ++ b := by
  intro a
  induction a with
  | nil =>
      intro b i hi
      simp at hi
      simp [hi]
  | cons x a ih =>
      intro b i hi
      cases i with
      | zero => rfl
      | succ j =>
          simp only [List.cons_append, List.drop_succ_cons]
          exact ih b j (by simpa using hi)

theorem drop_append_ge :
    ∀ (a b : List Char) (j : Nat), (a ++ b).drop (a.length + j) = b.drop j := by
  intro a
  induction a with
  | nil => intro b j; simp
  | cons x a ih =>
      intro b j
      simp only [List.cons_append, List.length_cons]
      have : a.length + 1 + j = (a.length + j) + 1 := by omega
      rw [this, List.drop_succ_cons]
      exact ih b j

theorem clears_nil (key : List Char) : Clears key [] := by
  intro sh rest i hi
  simp at hi

theorem clears_append (key : List Char) (a b : List Char)
    (ha : Clears key a) (hb : Clears key b) : Clears key (a ++ b) := by
  intro sh rest i hi
  by_cases hia : i < a.length
  · rw [drop_append_le a b i (Nat.le_of_lt hia), List.append_assoc]
    exact ha sh (b ++ rest) i hia
  · have hi2 : i = a.length + (i - a.length) := by omega
    rw [hi2, drop_append_ge]
    refine hb sh rest (i - a.length) ?_
    rw [List.length_append] at hi
    omega

theorem clears_tail (key : List Char) (c : Char) (t : List Char)
    (h : Clears key (c :: t)) : Clears key t := by
  intro sh rest i hi
  have := h sh rest (i + 1) (by simpa using Nat.succ_lt_succ hi)
  simpa using this

theorem matchAt_cons_ne (key : List Char) (kc : Char) (kt : List Char)
    (hk : key = kc :: kt) (c : Char) (t : List Char) (hc : c ≠ kc)
    (sh : MShape) : matchAt key sh (c :: t) = none := by
  subst hk
  simp [matchAt, dropPre, hc]

theorem clears_of_pred (kc : Char) (kt : List Char) (p : Char → Bool)
    (hkc : p kc = false) (s : List Char) (hall : ∀ c ∈ s, p c = true) :
    Clears (kc :: kt) s := by
  intro sh rest i hi
  cases hd : s.drop i with
  | nil =>
      exfalso
      have := List.length_drop i s
      rw [hd] at this
      simp at this
      omega
  | cons c t =>
      have hcs : c ∈ s := by
        refine List.drop_subset i s ?_
        rw [hd]
        exact List.mem_cons_self _ _
      have hcp : p c = true := hall c hcs
      have hckc : c ≠ kc := by
        intro hc
        rw [hc, hkc] at hcp
        cases hcp
      rw [List.cons_append]
      exact matchAt_cons_ne _ kc kt rfl c (t ++ rest) hckc sh

theorem dropPre_self : ∀ (p r : List Char), dropPre p (p ++ r) = some r := by
  intro p
  induction p with
  | nil => intro r; rfl
  | cons c p ih =>
      intro r
      simp only [List.cons_append, dropPre, if_pos rfl]
      exact ih r

theorem dropPre_append_some :
    ∀ (key t r t1 : List Char), dropPre key t = some t1 →
      dropPre key (t ++ r) = some (t1 ++ r) := by
  intro key
  induction key with
  | nil =>
      intro t r t1 h
      simp only [dropPre, Option.some.injEq] at h
      subst h
      rfl
  | cons p ps ih =>
      intro t r t1 h
      cases t with
      | nil => cases h
      | cons c cs =>
          simp only [dropPre] at h
          by_cases hc : c = p
          · rw [if_pos hc] at h
            simp only [List.cons_append, dropPre, if_pos hc]
            exact ih cs r t1 h
          · rw [if_neg hc] at h
            cases h

theorem dropPre_mismatch :
    ∀ (key t : List Char), dropPre key t = none → listIsPre t key = false →
      ∀ r, dropPre key (t ++ r) = none := by
  intro key
  induction key with
  | nil => intro t h; cases h
  | cons p ps ih =>
      intro t h hpre r
      cases t with
      | nil => simp [listIsPre] at hpre
      | cons c cs =>
          simp only [dropPre] at h
          simp only [listIsPre] at hpre
          by_cases hc : c = p
          · rw [if_pos hc] at h
            have hpre2 : listIsPre cs ps = false := by
              rw [hc] at hpre
              simpa using hpre
            simp only [List.cons_append, dropPre, if_pos hc]
            exact ih cs h hpre2 r
          · simp [List.cons_append, dropPre, hc]

theorem dropWhile_append_cons (p : Char → Bool) :
    ∀ (l : List Char) (c : Char) (u r : List Char),
      l.dropWhile p = c :: u → (l ++ r).dropWhile p = c :: (u ++ r) := by
  intro l
  induction l with
  | nil => intro c u r h; cases h
  | cons a l ih =>
      intro c u r h
      by_cases ha : p a
      · rw [List.dropWhile_cons_of_pos ha] at h
        rw [List.cons_append, List.dropWhile_cons_of_pos ha]
        exact ih c u r h
      · rw [List.dropWhile_cons_of_neg ha] at h
        injection h with h1 h2
        subst h1
        subst h2
        rw [List.cons_append, List.dropWhile_cons_of_neg ha]

theorem posClean_sound (key t : List Char) (h : posCleanB key t = true) :
    ∀ (sh : MShape) (r : List Char), matchAt key sh (t ++ r) = none := by
  intro sh r
  cases hd : dropPre key t with
  | none =>
      have hpre : listIsPre t key = false := by
        simp only [posCleanB, hd] at h
        simpa using h
      simp [matchAt, dropPre_mismatch key t hd hpre r]
  | some t1 =>
      simp only [posCleanB, hd] at h
      cases hw : t1.dropWhile isWsCh with
      | nil => rw [hw] at h; cases h
      | cons c u =>
          rw [hw] at h
          have hce : c ≠ '=' := by simpa using h
          simp [matchAt, dropPre_append_some key t r t1 hd,
            dropWhile_append_cons isWsCh t1 c u r hw, hce]

theorem segClean_sound (key : List Char) :
    ∀ seg, segCleanB key seg = true → Clears key seg := by
  intro seg
  induction seg with
  | nil => intro _; exact clears_nil key
  | cons c t ih =>
      intro h sh rest i hi
      simp only [segCleanB, Bool.and_eq_true] at h
      cases i with
      | zero => exact posClean_sound key (c :: t) h.1 sh rest
      | succ j =>
          have hj : j < t.length := by simpa using hi
          exact ih h.2 sh rest j hj

theorem findMatchL_append_clears (key : List Char) (sh : MShape) :
    ∀ (a b : List Char), Clears key a →
      findMatchL key sh (a ++ b) = findMatchL key sh b := by
  intro a
  induction a with
  | nil => intro b _; rfl
  | cons c t ih =>
      intro b hcl
      have h0 : matchAt key sh (List.drop 0 (c :: t) ++ b) = none :=
        hcl sh b 0 (by simp)
      simp only [List.drop_zero] at h0
      rw [List.cons_append, findMatchL]
      rw [← List.cons_append, h0]
      exact ih b (clears_tail key c t hcl)

theorem findMatchL_none_of_clears (key : List Char) (sh : MShape)
    (s : List Char) (h : Clears key s) : findMatchL key sh s = none := by
  have h2 := findMatchL_append_clears key sh s [] h
  rw [List.append_nil] at h2
  rw [h2]
  rfl

theorem findMatchL_cons_some (key : List Char) (sh : MShape) (c : Char)
    (t cap : List Char) (h : matchAt key sh (c :: t) = some cap) :
    findMatchL key sh (c :: t) = some cap := by
  rw [findMatchL, h]

/-! ## Matching at a marker -/

theorem isWs_false_of_numdot (c : Char) (h : isNumDotCh c = true) :
    isWsCh c = false := by
  by_cases hic : isWsCh c = true
  · exfalso
    simp only [isWsCh, Bool.or_eq_true, decide_eq_true_eq] at hic
    rcases hic with ((((h2 | h2) | h2) | h2) | h2) | h2 <;>
      (rw [h2] at h; exact absurd h (by decide))
  · simpa using hic

theorem numdot_of_digit (c : Char) (h : isDigitCh c = true) :
    isNumDotCh c = true := by
  simp [isNumDotCh, h]

theorem matchAt_quoted (key s rest : List Char) (hs : s ≠ [])
    (hq : ∀ c ∈ s, isQuoteCh c = false) :
    matchAt key .quoted (key ++ ' ' :: '=' :: ' ' :: '"' :: (s ++ '"' :: rest))
      = some s := by
  have hd1 : List.dropWhile isWsCh (' ' :: '=' :: ' ' :: '"' :: (s ++ '"' :: rest))
      = '=' :: ' ' :: '"' :: (s ++ '"' :: rest) := by
    rw [List.dropWhile_cons_of_pos (by decide), List.dropWhile_cons_of_neg (by decide)]
  have hd2 : List.dropWhile isWsCh (' ' :: '"' :: (s ++ '"' :: rest))
      = '"' :: (s ++ '"' :: rest) := by
    rw [List.dropWhile_cons_of_pos (by decide), List.dropWhile_cons_of_neg (by decide)]
  have hstop := takeWhile_append_stop (fun d => !(isQuoteCh d)) s '"' rest
    (fun x hx => by simp [hq x hx]) (by decide)
  have hne : s.isEmpty = false := by
    cases s with
    | nil => exact absurd rfl hs
    | cons a t => rfl
  simp only [matchAt, dropPre_self, hd1, hd2, hstop.1, hstop.2, hne]
  have hqd : isQuoteCh '"' = true := rfl
  simp only [hqd]
  simp

theorem matchAt_float (key s rest : List Char) (hs : s ≠ [])
    (hall : ∀ c ∈ s, isNumDotCh c = true) :
    matchAt key .floatLike (key ++ ' ' :: '=' :: ' ' :: (s ++ '\n' :: rest))
      = some s := by
  have hd1 : List.dropWhile isWsCh (' ' :: '=' :: ' ' :: (s ++ '\n' :: rest))
      = '=' :: ' ' :: (s ++ '\n' :: rest) := by
    rw [List.dropWhile_cons_of_pos (by decide), List.dropWhile_cons_of_neg (by decide)]
  have hd2 : List.dropWhile isWsCh (' ' :: (s ++ '\n' :: rest))
      = s ++ '\n' :: rest := by
    rw [List.dropWhile_cons_of_pos (by decide)]
    cases hsd : s with
    | nil => exact absurd hsd hs
    | cons c t =>
        rw [List.cons_append]
        rw [List.dropWhile_cons_of_neg]
        intro hc
        have hnd : isNumDotCh c = true :=
          hall c (by rw [hsd]; exact List.mem_cons_self _ _)
        rw [isWs_false_of_numdot c hnd] at hc
        cases hc
  have hstop := takeWhile_append_stop isNumDotCh s '\n' rest hall (by decide)
  have hne : s.isEmpty = false := by
    cases s with
    | nil => exact absurd rfl hs
    | cons a t => rfl
  simp only [matchAt, dropPre_self, hd1, hd2, hstop.1, hne]
  simp

theorem matchAt_int (key s rest : List Char) (hs : s ≠ [])
    (hall : ∀ c ∈ s, isDigitCh c = true) :
    matchAt key .intLike (key ++ ' ' :: '=' :: ' ' :: (s ++ '\n' :: rest))
      = some s := by
  have hd1 : List.dropWhile isWsCh (' ' :: '=' :: ' ' :: (s ++ '\n' :: rest))
      = '=' :: ' ' :: (s ++ '\n' :: rest) := by
    rw [List.dropWhile_cons_of_pos (by decide), List.dropWhile_cons_of_neg (by decide)]
  have hd2 : List.dropWhile isWsCh (' ' :: (s ++ '\n' :: rest))
      = s ++ '\n' :: rest := by
    rw [List.dropWhile_cons_of_pos (by decide)]
    cases hsd : s with
    | nil => exact absurd hsd hs
    | cons c t =>
        rw [List.cons_append]
        rw [List.dropWhile_cons_of_neg]
        intro hc
        have hnd : isNumDotCh c = true :=
          numdot_of_digit c (hall c (by rw [hsd]; exact List.mem_cons_self _ _))
        rw [isWs_false_of_numdot c hnd] at hc
        cases hc
  have hstop := takeWhile_append_stop isDigitCh s '\n' rest hall (by decide)
  have hne : s.isEmpty = false := by
    cases s with
    | nil => exact absurd rfl hs
    | cons a t => rfl
  simp only [matchAt, dropPre_self, hd1, hd2, hstop.1, hne]
  simp

theorem charBlob_nil : charBlob [] = [] := rfl

theorem charBlob_cons (l : String) (ls : List String) :
    charBlob (l :: ls) = withNl l ++ charBlob ls := rfl

theorem charBlob_append (a b : List String) :
    charBlob (a ++ b) = charBlob a ++ charBlob b :=
  List.flatMap_append ..

theorem joinLn_data_last_empty :
    ∀ ls : List String, ls.getLast? = some "" →
      (joinLn ls).data = charBlob ls.dropLast := by
  intro ls
  induction ls with
  | nil => intro h; cases h
  | cons x rest ih =>
      intro h
      cases rest with
      | nil =>
          simp only [List.getLast?_singleton, Option.some.injEq] at h
          subst h
          rfl
      | cons y t =>
          have h2 : (y :: t).getLast? = some "" := by
            rw [← h]
            exact (List.getLast?_cons_cons ..).symm
          have hj : joinLn (x :: y :: t) = x ++ "\n" ++ joinLn (y :: t) := rfl
          rw [hj, String.data_append (x ++ "\n") (joinLn (y :: t)),
            String.data_append x "\n", ih h2]
          have hd : (x :: y :: t).dropLast = x :: (y :: t).dropLast := by
            simp
          rw [hd, charBlob_cons, withNl]

theorem clears_charBlob (key : List Char) :
    ∀ ls : List String, (∀ l ∈ ls, Clears key (withNl l)) →
      Clears key (charBlob ls) := by
  intro ls
  induction ls with
  | nil => intro _; exact clears_nil key
  | cons l rest ih =>
      intro h
      rw [charBlob_cons]
      exact clears_append key _ _ (h l (List.mem_cons_self _ _))
        (ih (fun x hx => h x (List.mem_cons_of_mem _ hx)))

/-! ## Clearing the generated chunks -/

theorem strParam_of_good (ps : List (String × JsVal)) (k d v : String)
    (h : ps.lookup k = some (.vstr v)) (hs : safeStrB v = true) :
    strParam ps k d = v := by
  simp only [safeStrB, Bool.and_eq_true] at hs
  simp [strParam, h, truthy, hs.1, valToStr]

theorem numParamStr_of_good (ps : List (String × JsVal)) (k d : String)
    (q : JsNum) (h : ps.lookup k = some (.vnum q)) :
    numParamStr ps k d = jsNumToStr q := by
  simp [numParamStr, h, valToStr]

theorem safe_all (v : String) (h : safeStrB v = true) :
    ∀ c ∈ v.data, safeChar c = true := by
  simp only [safeStrB, Bool.and_eq_true, List.all_eq_true] at h
  exact fun c hc => h.2 c hc

theorem safe_ne_empty (v : String) (h : safeStrB v = true) : v ≠ "" := by
  simp only [safeStrB, Bool.and_eq_true] at h
  simpa using h.1

theorem goodNum_of_goodInt (q : JsNum) (h : goodIntB q = true) :
    goodNumB q = true := by
  cases q with
  | nan => simp [goodIntB] at h
  | dec neg i frac =>
      cases neg with
      | true => simp [goodIntB] at h
      | false =>
          simp only [goodIntB, List.isEmpty_iff] at h
          subst h
          rfl

theorem jsNumToChars_dec (i : Nat) (frac : List (Fin 10)) :
    jsNumToChars (.dec false i frac)
      = natDigits i ++ (if frac.isEmpty then [] else '.' :: fracChars frac) := by
  simp [jsNumToChars]

theorem jsNumToChars_numdot (q : JsNum) (h : goodNumB q = true) :
    ∀ c ∈ jsNumToChars q, isNumDotCh c = true := by
  cases q with
  | nan => simp [goodNumB] at h
  | dec neg i frac =>
      cases neg with
      | true => simp [goodNumB] at h
      | false =>
          intro c hc
          rw [jsNumToChars_dec] at hc
          rcases List.mem_append.mp hc with hc | hc
          · exact numdot_of_digit c (natDigits_all_digits i c hc)
          · by_cases hfe : frac.isEmpty
            · rw [if_pos hfe] at hc
              cases hc
            · rw [if_neg hfe] at hc
              rcases List.mem_cons.mp hc with rfl | hc
              · rfl
              · exact numdot_of_digit c (fracChars_all_digits frac c hc)

theorem jsNumToChars_ne_nil (q : JsNum) (h : goodNumB q = true) :
    jsNumToChars q ≠ [] := by
  cases q with
  | nan => simp [goodNumB] at h
  | dec neg i frac =>
      cases neg with
      | true => simp [goodNumB] at h
      | false =>
          rw [jsNumToChars_dec]
          intro hc
          rcases List.append_eq_nil.mp hc with ⟨h1, _⟩
          exact natDigits_ne_nil i h1

theorem jsNumToChars_int (i : Nat) :
    jsNumToChars (.dec false i []) = natDigits i := by
  simp [jsNumToChars]

theorem clears_of_safe (kc : Char) (kt : List Char)
    (hkc : safeChar kc = false) (s : String)
    (hs : s.data.all safeChar = true) : Clears (kc :: kt) s.data :=
  clears_of_pred kc kt safeChar hkc s.data (List.all_eq_true.mp hs)

theorem clears_of_numdot (kc : Char) (kt : List Char)
    (hkc : isNumDotCh kc = false) (l : List Char)
    (h : ∀ c ∈ l, isNumDotCh c = true) : Clears (kc :: kt) l :=
  clears_of_pred kc kt isNumDotCh hkc l h

theorem withNl_append1 (a b : String) :
    withNl (a ++ b) = a.data ++ withNl b := by
  simp [withNl, String.data_append, List.append_assoc]

theorem withNl_append2 (a b c : String) :
    withNl (a ++ b ++ c) = a.data ++ (b.data ++ withNl c) := by
  simp [withNl, String.data_append, List.append_assoc]

theorem clears_datasetChunk (kc : Char) (kt : List Char)
    (hsafe : safeChar kc = false)
    (ps : List (String × JsVal))
    (hfp : (strParam ps "file_path" "path/to/data.csv").data.all safeChar = true)
    (htg : (strParam ps "target" "target").data.all safeChar = true)
    (hsegs : ∀ s ∈ datasetSegs, segCleanB (kc :: kt) s = true) :
    Clears (kc :: kt) (charBlob (datasetLines ps)) := by
  simp only [datasetLines, charBlob, List.flatMap_cons, List.flatMap_nil,
    List.append_nil]
  refine clears_append _ _ _
    (segClean_sound _ _ (hsegs _ (by decide))) ?_
  refine clears_append _ _ _ ?_ ?_
  · rw [withNl_append2]
    refine clears_append _ _ _
      (segClean_sound _ _ (hsegs _ (by decide))) ?_
    exact clears_append _ _ _ (clears_of_safe kc kt hsafe _ hfp)
      (segClean_sound _ _ (hsegs _ (by decide)))
  refine clears_append _ _ _ ?_ ?_
  · rw [withNl_append2]
    refine clears_append _ _ _
      (segClean_sound _ _ (hsegs _ (by decide))) ?_
    exact clears_append _ _ _ (clears_of_safe kc kt hsafe _ htg)
      (segClean_sound _ _ (hsegs _ (by decide)))
  refine clears_append _ _ _
    (segClean_sound _ _ (hsegs _ (by decide))) ?_
  refine clears_append _ _ _
    (segClean_sound _ _ (hsegs _ (by decide))) ?_
  refine clears_append _ _ _
    (segClean_sound _ _ (hsegs _ (by decide))) ?_
  refine clears_append _ _ _
    (segClean_sound _ _ (hsegs _ (by decide))) ?_
  refine clears_append _ _ _
    (segClean_sound _ _ (hsegs _ (by decide))) ?_
  exact segClean_sound _ _ (hsegs _ (by decide))

theorem clears_splitChunk (kc : Char) (kt : List Char)
    (hnum : isNumDotCh kc = false)
    (ps : List (String × JsVal))
    (hts : ∀ c ∈ (numParamStr ps "test_size" "0.2").data, isNumDotCh c = true)
    (hsegs : ∀ s ∈ splitSegs, segCleanB (kc :: kt) s = true) :
    Clears (kc :: kt) (charBlob (splitLines ps)) := by
  simp only [splitLines, charBlob, List.flatMap_cons, List.flatMap_nil,
    List.append_nil]
  refine clears_append _ _ _
    (segClean_sound _ _ (hsegs _ (by decide))) ?_
  refine clears_append _ _ _ ?_ ?_
  · rw [withNl_append1, withNl]
    refine clears_append _ _ _
      (segClean_sound _ _ (hsegs _ (by decide))) ?_
    refine clears_append _ _ _ (clears_of_numdot kc kt hnum _ hts) ?_
    exact segClean_sound _ _ (hsegs _ (by decide))
  refine clears_append _ _ _
    (segClean_sound _ _ (hsegs _ (by decide))) ?_
  refine clears_append _ _ _
    (segClean_sound _ _ (hsegs _ (by decide))) ?_
  refine clears_append _ _ _
    (segClean_sound _ _ (hsegs _ (by decide))) ?_
  refine clears_append _ _ _
    (segClean_sound _ _ (hsegs _ (by decide))) ?_
  refine clears_append _ _ _
    (segClean_sound _ _ (hsegs _ (by decide))) ?_
  exact segClean_sound _ _ (hsegs _ (by decide))

theorem clears_modelChunk (kc : Char) (kt : List Char)
    (hsafe : safeChar kc = false) (hnum : isNumDotCh kc = false)
    (ps : List (String × JsVal))
    (htk : (strParam ps "task" "classification").data.all safeChar = true)
    (hne : ∀ c ∈ (numParamStr ps "n_estimators" "100").data, isNumDotCh c = true)
    (hmd : ∀ c ∈ (numParamStr ps "max_depth" "10").data, isNumDotCh c = true)
    (hsegs : ∀ s ∈ modelSegs, segCleanB (kc :: kt) s = true) :
    Clears (kc :: kt) (charBlob ((modelLines ps).1)) := by
  simp only [modelLines, charBlob, List.flatMap_cons, List.flatMap_nil,
    List.append_nil]
  refine clears_append _ _ _
    (segClean_sound _ _ (hsegs _ (by decide))) ?_
  refine clears_append _ _ _ ?_ ?_
  · rw [withNl_append2]
    refine clears_append _ _ _
      (segClean_sound _ _ (hsegs _ (by decide))) ?_
    exact clears_append _ _ _ (clears_of_safe kc kt hsafe _ htk)
      (segClean_sound _ _ (hsegs _ (by decide)))
  refine clears_append _ _ _ ?_ ?_
  · rw [withNl_append1, withNl]
    refine clears_append _ _ _
      (segClean_sound _ _ (hsegs _ (by decide))) ?_
    refine clears_append _ _ _ (clears_of_numdot kc kt hnum _ hne) ?_
    exact segClean_sound _ _ (hsegs _ (by decide))
  refine clears_append _ _ _ ?_ ?_
  · rw [withNl_append1, withNl]
    refine clears_append _ _ _
      (segClean_sound _ _ (hsegs _ (by decide))) ?_
    refine clears_append _ _ _ (clears_of_numdot kc kt hnum _ hmd) ?_
    exact segClean_sound _ _ (hsegs _ (by decide))
  refine clears_append _ _ _
    (segClean_sound _ _ (hsegs _ (by decide))) ?_
  refine clears_append _ _ _ ?_ ?_
  · by_cases hcl : strParam ps "task" "classification" = "classification"
    · rw [if_pos hcl]
      exact segClean_sound _ _ (hsegs _ (by decide))
    · rw [if_neg hcl]
      exact segClean_sound _ _ (hsegs _ (by decide))
  refine clears_append _ _ _
    (segClean_sound _ _ (hsegs _ (by decide))) ?_
  refine clears_append _ _ _
    (segClean_sound _ _ (hsegs _ (by decide))) ?_
  refine clears_append _ _ _
    (segClean_sound _ _ (hsegs _ (by decide))) ?_
  refine clears_append _ _ _
    (segClean_sound _ _ (hsegs _ (by decide))) ?_
  refine clears_append _ _ _
    (segClean_sound _ _ (hsegs _ (by decide))) ?_
  exact segClean_sound _ _ (hsegs _ (by decide))

theorem clears_trainerChunk (kc : Char) (kt : List Char)
    (hsegs : ∀ s ∈ trainerSegs, segCleanB (kc :: kt) s = true) :
    Clears (kc :: kt) (charBlob trainerLines) := by
  refine clears_charBlob _ _ ?_
  intro l hl
  refine segClean_sound _ (withNl l) (hsegs (withNl l) ?_)
  have hmem : ∀ l2 ∈ trainerLines, withNl l2 ∈ trainerSegs := by decide
  exact hmem l hl

theorem clears_metricsChunk (kc : Char) (kt : List Char) (t : String)
    (hsegs : ∀ s ∈ metricsSegs, segCleanB (kc :: kt) s = true) :
    Clears (kc :: kt) (charBlob (metricsLines t)) := by
  refine clears_charBlob _ _ ?_
  intro l hl
  refine segClean_sound _ (withNl l) (hsegs (withNl l) ?_)
  by_cases ht : t = "classification"
  · rw [metricsLines, if_pos ht] at hl
    have hmem : ∀ l2 ∈ (["# === EVALUATION ===",
        "y_pred = model.predict(X_test)", ""] ++
        ["accuracy = accuracy_score(y_test, y_pred)",
         "precision = precision_score(y_test, y_pred, average=\x27weighted\x27, zero_division=0)",
         "recall = recall_score(y_test, y_pred, average=\x27weighted\x27, zero_division=0)",
         "f1 = f1_score(y_test, y_pred, average=\x27weighted\x27, zero_division=0)",
         "",
         "print(f\"Accuracy:  \x7baccuracy:.4f\x7d\")",
         "print(f\"Precision: \x7bprecision:.4f\x7d\")",
         "print(f\"Recall:    \x7brecall:.4f\x7d\")",
         "print(f\"F1 Score:  \x7bf1:.4f\x7d\")"] ++ [""]),
        withNl l2 ∈ metricsSegs := by decide
    exact hmem l hl
  · rw [metricsLines, if_neg ht] at hl
    have hmem : ∀ l2 ∈ (["# === EVALUATION ===",
        "y_pred = model.predict(X_test)", ""] ++
        ["mse = mean_squared_error(y_test, y_pred)",
         "mae = mean_absolute_error(y_test, y_pred)",
         "r2 = r2_score(y_test, y_pred)",
         "",
         "print(f\"MSE: \x7bmse:.4f\x7d\")",
         "print(f\"MAE: \x7bmae:.4f\x7d\")",
         "print(f\"R2:  \x7br2:.4f\x7d\")"] ++ [""]),
        withNl l2 ∈ metricsSegs := by decide
    exact hmem l hl

theorem clears_headerChunk (kc : Char) (kt : List Char)
    (hsegs : ∀ s ∈ headerSegs, segCleanB (kc :: kt) s = true) :
    Clears (kc :: kt) (charBlob headerLines) := by
  refine clears_charBlob _ _ ?_
  intro l hl
  refine segClean_sound _ (withNl l) (hsegs (withNl l) ?_)
  exact List.mem_map.mpr ⟨l, hl, rfl⟩

theorem renderBlocks_append :
    ∀ (xs ys : List Node) (t : String),
      renderBlocks (xs ++ ys) t
        = renderBlocks xs t ++ renderBlocks ys (taskFold xs t) := by
  intro xs
  induction xs with
  | nil => intro ys t; rfl
  | cons n rest ih =>
      intro ys t
      simp only [List.cons_append, renderBlocks, taskFold]
      rw [List.append_eq, ih ys (blockLines n t).2, List.append_assoc]

theorem clears_blockChunk (kc : Char) (kt : List Char)
    (hsafe : safeChar kc = false) (hnum : isNumDotCh kc = false)
    (n : Node) (t : String) (hg : goodParams n)
    (hsegs : ∀ s ∈ tmplSegsOf n.data.blockType, segCleanB (kc :: kt) s = true) :
    Clears (kc :: kt) (charBlob (blockLines n t).1) := by
  by_cases h1 : n.data.blockType = "dataset"
  · rcases (by rw [goodParams, h1] at hg; exact hg :
        (∃ fp, (nodeParams n).lookup "file_path" = some (.vstr fp)
          ∧ safeStrB fp = true)
        ∧ (∃ tg, (nodeParams n).lookup "target" = some (.vstr tg)
          ∧ safeStrB tg = true)) with ⟨⟨fp, hfp, hfps⟩, ⟨tg, htg, htgs⟩⟩
    rw [h1] at hsegs
    simp only [blockLines, h1]
    refine clears_datasetChunk kc kt hsafe (nodeParams n) ?_ ?_ hsegs
    · rw [strParam_of_good _ _ _ _ hfp hfps]
      simp only [safeStrB, Bool.and_eq_true] at hfps
      exact hfps.2
    · rw [strParam_of_good _ _ _ _ htg htgs]
      simp only [safeStrB, Bool.and_eq_true] at htgs
      exact htgs.2
  by_cases h2 : n.data.blockType = "split"
  · rcases (by rw [goodParams, h2] at hg; exact hg :
        ∃ q, (nodeParams n).lookup "test_size" = some (.vnum q)
          ∧ goodNumB q = true) with ⟨q, hq, hqg⟩
    rw [h2] at hsegs
    simp only [blockLines, h2]
    refine clears_splitChunk kc kt hnum (nodeParams n) ?_ hsegs
    rw [numParamStr_of_good _ _ _ _ hq]
    exact jsNumToChars_numdot q hqg
  by_cases h3 : n.data.blockType = "model"
  · rcases (by rw [goodParams, h3] at hg; exact hg :
        (∃ tk, (nodeParams n).lookup "task" = some (.vstr tk)
          ∧ safeStrB tk = true)
        ∧ (∃ ne, (nodeParams n).lookup "n_estimators" = some (.vnum ne)
          ∧ goodIntB ne = true)
        ∧ (∃ md, (nodeParams n).lookup "max_depth" = some (.vnum md)
          ∧ goodIntB md = true)) with
      ⟨⟨tk, htk, htks⟩, ⟨ne, hne, hneg⟩, ⟨md, hmd, hmdg⟩⟩
    rw [h3] at hsegs
    simp only [blockLines, h3]
    refine clears_modelChunk kc kt hsafe hnum (nodeParams n) ?_ ?_ ?_ hsegs
    · rw [strParam_of_good _ _ _ _ htk htks]
      simp only [safeStrB, Bool.and_eq_true] at htks
      exact htks.2
    · rw [numParamStr_of_good _ _ _ _ hne]
      exact jsNumToChars_numdot ne (goodNum_of_goodInt ne hneg)
    · rw [numParamStr_of_good _ _ _ _ hmd]
      exact jsNumToChars_numdot md (goodNum_of_goodInt md hmdg)
  by_cases h4 : n.data.blockType = "trainer"
  · rw [h4] at hsegs
    simp only [blockLines, h4]
    exact clears_trainerChunk kc kt hsegs
  by_cases h5 : n.data.blockType = "metrics"
  · rw [h5] at hsegs
    simp only [blockLines, h5]
    exact clears_metricsChunk kc kt t hsegs
  have hbl : (blockLines n t).1 = [] := by
    simp only [blockLines]
  rw [hbl]
  exact clears_nil _

theorem clears_renderBlocks (kc : Char) (kt : List Char)
    (hsafe : safeChar kc = false) (hnum : isNumDotCh kc = false) :
    ∀ (ns : List Node) (t : String),
      (∀ n ∈ ns, goodParams n) →
      (∀ n ∈ ns, ∀ s ∈ tmplSegsOf n.data.blockType,
        segCleanB (kc :: kt) s = true) →
      Clears (kc :: kt) (charBlob (renderBlocks ns t)) := by
  intro ns
  induction ns with
  | nil => intro t _ _; exact clears_nil _
  | cons n rest ih =>
      intro t hg hsegs
      simp only [renderBlocks]
      rw [charBlob_append]
      refine clears_append _ _ _ ?_ ?_
      · exact clears_blockChunk kc kt hsafe hnum n t
          (hg n (List.mem_cons_self _ _)) (hsegs n (List.mem_cons_self _ _))
      · exact ih (blockLines n t).2 (fun x hx => hg x (List.mem_cons_of_mem _ hx))
          (fun x hx => hsegs x (List.mem_cons_of_mem _ hx))

/-! ## Locating a marker in the joined text -/

theorem getLast?_ne_nil (l : List String) (x : String)
    (h : l.getLast? = some x) : l ≠ [] := by
  intro hc
  rw [hc] at h
  cases h

theorem blockLines_last (n : Node) (t : String) :
    (blockLines n t).1 = [] ∨ ((blockLines n t).1).getLast? = some "" := by
  by_cases h1 : n.data.blockType = "dataset"
  · right
    simp only [blockLines, h1, datasetLines]
    rfl
  by_cases h2 : n.data.blockType = "split"
  · right
    simp only [blockLines, h2, splitLines]
    rfl
  by_cases h3 : n.data.blockType = "model"
  · right
    simp only [blockLines, h3, modelLines]
    rfl
  by_cases h4 : n.data.blockType = "trainer"
  · right
    simp only [blockLines, h4, trainerLines]
    rfl
  by_cases h5 : n.data.blockType = "metrics"
  · right
    simp only [blockLines, h5, metricsLines]
    rw [List.append_assoc, List.getLast?_append_of_ne_nil _ (by
      intro hc
      rcases List.append_eq_nil.mp hc with ⟨_, h⟩
      cases h)]
    rw [List.getLast?_append_of_ne_nil _ (by intro hc; cases hc)]
    rfl
  left
  simp only [blockLines]

theorem renderBlocks_last (ns : List Node) (t : String) :
    renderBlocks ns t = [] ∨ (renderBlocks ns t).getLast? = some "" := by
  induction ns generalizing t with
  | nil => left; rfl
  | cons n rest ih =>
      simp only [renderBlocks]
      rcases ih (blockLines n t).2 with hr | hr
      · rw [hr, List.append_nil]
        exact blockLines_last n t
      · right
        rw [List.getLast?_append_of_ne_nil _
          (getLast?_ne_nil _ _ hr)]
        exact hr

theorem allLines_last (ns : List Node) (t : String) :
    (headerLines ++ renderBlocks ns t).getLast? = some "" := by
  rcases renderBlocks_last ns t with hr | hr
  · rw [hr, List.append_nil]
    rfl
  · rw [List.getLast?_append_of_ne_nil _ (getLast?_ne_nil _ _ hr)]
    exact hr

theorem findMatch_locate (keyS : String) (sh : MShape)
    (ls pre post : List String) (marker : String)
    (hsplit : ls = pre ++ marker :: post) (hpost : post ≠ [])
    (hlast : ls.getLast? = some "")
    (hclear : Clears keyS.data (charBlob pre))
    (cap : List Char)
    (hmatch : ∀ blob : List Char,
      matchAt keyS.data sh (withNl marker ++ blob) = some cap) :
    findMatch keyS sh (joinLn ls) = some (String.mk cap) := by
  cases hpd : post with
  | nil => exact absurd hpd hpost
  | cons p0 ptail =>
      have hdrop : ls.dropLast = pre ++ marker :: (p0 :: ptail).dropLast := by
        rw [hsplit, hpd]
        rw [List.dropLast_append_of_ne_nil _ (by intro hc; cases hc)]
        rfl
      have hdata : (joinLn ls).data = charBlob ls.dropLast :=
        joinLn_data_last_empty ls hlast
      rw [findMatch, hdata, hdrop, charBlob_append, charBlob_cons]
      rw [findMatchL_append_clears keyS.data sh (charBlob pre) _ hclear]
      have hm := hmatch (charBlob ((p0 :: ptail).dropLast))
      cases hw : withNl marker ++ charBlob ((p0 :: ptail).dropLast) with
      | nil =>
          exfalso
          have : withNl marker = [] := (List.append_eq_nil.mp hw).1
          exact List.append_ne_nil_of_right_ne_nil _ (by simp) this
      | cons c t =>
          rw [hw] at hm
          rw [findMatchL_cons_some keyS.data sh c t cap hm]
          rfl

/-! ## Line-level clearing (for dropped-last-line streams) -/

theorem lineClears_dataset (kc : Char) (kt : List Char)
    (hsafe : safeChar kc = false)
    (ps : List (String × JsVal))
    (hfp : (strParam ps "file_path" "path/to/data.csv").data.all safeChar = true)
    (htg : (strParam ps "target" "target").data.all safeChar = true)
    (hsegs : ∀ s ∈ datasetSegs, segCleanB (kc :: kt) s = true) :
    ∀ l ∈ datasetLines ps, Clears (kc :: kt) (withNl l) := by
  intro l hl
  simp only [datasetLines, List.mem_cons, List.not_mem_nil, or_false] at hl
  rcases hl with rfl | rfl | rfl | rfl | rfl | rfl | rfl | rfl | rfl
  · exact segClean_sound _ _ (hsegs _ (by decide))
  · rw [withNl_append2]
    refine clears_append _ _ _ (segClean_sound _ _ (hsegs _ (by decide))) ?_
    exact clears_append _ _ _ (clears_of_safe kc kt hsafe _ hfp)
      (segClean_sound _ _ (hsegs _ (by decide)))
  · rw [withNl_append2]
    refine clears_append _ _ _ (segClean_sound _ _ (hsegs _ (by decide))) ?_
    exact clears_append _ _ _ (clears_of_safe kc kt hsafe _ htg)
      (segClean_sound _ _ (hsegs _ (by decide)))
  · exact segClean_sound _ _ (hsegs _ (by decide))
  · exact segClean_sound _ _ (hsegs _ (by decide))
  · exact segClean_sound _ _ (hsegs _ (by decide))
  · exact segClean_sound _ _ (hsegs _ (by decide))
  · exact segClean_sound _ _ (hsegs _ (by decide))
  · exact segClean_sound _ _ (hsegs _ (by decide))

theorem lineClears_split (kc : Char) (kt : List Char)
    (hnum : isNumDotCh kc = false)
    (ps : List (String × JsVal))
    (hts : ∀ c ∈ (numParamStr ps "test_size" "0.2").data, isNumDotCh c = true)
    (hsegs : ∀ s ∈ splitSegs, segCleanB (kc :: kt) s = true) :
    ∀ l ∈ splitLines ps, Clears (kc :: kt) (withNl l) := by
  intro l hl
  simp only [splitLines, List.mem_cons, List.not_mem_nil, or_false] at hl
  rcases hl with rfl | rfl | rfl | rfl | rfl | rfl | rfl | rfl
  · exact segClean_sound _ _ (hsegs _ (by decide))
  · rw [withNl_append1, withNl]
    refine clears_append _ _ _ (segClean_sound _ _ (hsegs _ (by decide))) ?_
    refine clears_append _ _ _ (clears_of_numdot kc kt hnum _ hts) ?_
    exact segClean_sound _ _ (hsegs _ (by decide))
  · exact segClean_sound _ _ (hsegs _ (by decide))
  · exact segClean_sound _ _ (hsegs _ (by decide))
  · exact segClean_sound _ _ (hsegs _ (by decide))
  · exact segClean_sound _ _ (hsegs _ (by decide))
  · exact segClean_sound _ _ (hsegs _ (by decide))
  · exact segClean_sound _ _ (hsegs _ (by decide))

theorem lineClears_model (kc : Char) (kt : List Char)
    (hsafe : safeChar kc = false) (hnum : isNumDotCh kc = false)
    (ps : List (String × JsVal))
    (htk : (strParam ps "task" "classification").data.all safeChar = true)
    (hne : ∀ c ∈ (numParamStr ps "n_estimators" "100").data, isNumDotCh c = true)
    (hmd : ∀ c ∈ (numParamStr ps "max_depth" "10").data, isNumDotCh c = true)
    (hsegs : ∀ s ∈ modelSegs, segCleanB (kc :: kt) s = true) :
    ∀ l ∈ (modelLines ps).1, Clears (kc :: kt) (withNl l) := by
  intro l hl
  simp only [modelLines, List.mem_cons, List.not_mem_nil, or_false] at hl
  rcases hl with rfl | rfl | rfl | rfl | rfl | rfl | rfl | rfl | rfl | rfl | rfl | rfl
  · exact segClean_sound _ _ (hsegs _ (by decide))
  · rw [withNl_append2]
    refine clears_append _ _ _ (segClean_sound _ _ (hsegs _ (by decide))) ?_
    exact clears_append _ _ _ (clears_of_safe kc kt hsafe _ htk)
      (segClean_sound _ _ (hsegs _ (by decide)))
  · rw [withNl_append1, withNl]
    refine clears_append _ _ _ (segClean_sound _ _ (hsegs _ (by decide))) ?_
    refine clears_append _ _ _ (clears_of_numdot kc kt hnum _ hne) ?_
    exact segClean_sound _ _ (hsegs _ (by decide))
  · rw [withNl_append1, withNl]
    refine clears_append _ _ _ (segClean_sound _ _ (hsegs _ (by decide))) ?_
    refine clears_append _ _ _ (clears_of_numdot kc kt hnum _ hmd) ?_
    exact segClean_sound _ _ (hsegs _ (by decide))
  · exact segClean_sound _ _ (hsegs _ (by decide))
  · by_cases hcl : strParam ps "task" "classification" = "classification"
    · rw [if_pos hcl]
      exact segClean_sound _ _ (hsegs _ (by decide))
    · rw [if_neg hcl]
      exact segClean_sound _ _ (hsegs _ (by decide))
  · exact segClean_sound _ _ (hsegs _ (by decide))
  · exact segClean_sound _ _ (hsegs _ (by decide))
  · exact segClean_sound _ _ (hsegs _ (by decide))
  · exact segClean_sound _ _ (hsegs _ (by decide))
  · exact segClean_sound _ _ (hsegs _ (by decide))
  · exact segClean_sound _ _ (hsegs _ (by decide))

theorem lineClears_trainer (kc : Char) (kt : List Char)
    (hsegs : ∀ s ∈ trainerSegs, segCleanB (kc :: kt) s = true) :
    ∀ l ∈ trainerLines, Clears (kc :: kt) (withNl l) := by
  intro l hl
  refine segClean_sound _ (withNl l) (hsegs (withNl l) ?_)
  have hmem : ∀ l2 ∈ trainerLines, withNl l2 ∈ trainerSegs := by decide
  exact hmem l hl

theorem lineClears_metrics (kc : Char) (kt : List Char) (t : String)
    (hsegs : ∀ s ∈ metricsSegs, segCleanB (kc :: kt) s = true) :
    ∀ l ∈ metricsLines t, Clears (kc :: kt) (withNl l) := by
  intro l hl
  refine segClean_sound _ (withNl l) (hsegs (withNl l) ?_)
  by_cases ht : t = "classification"
  · rw [metricsLines, if_pos ht] at hl
    have hmem : ∀ l2 ∈ (["# === EVALUATION ===",
        "y_pred = model.predict(X_test)", ""] ++
        ["accuracy = accuracy_score(y_test, y_pred)",
         "precision = precision_score(y_test, y_pred, average=\x27weighted\x27, zero_division=0)",
         "recall = recall_score(y_test, y_pred, average=\x27weighted\x27, zero_division=0)",
         "f1 = f1_score(y_test, y_pred, average=\x27weighted\x27, zero_division=0)",
         "",
         "print(f\"Accuracy:  \x7baccuracy:.4f\x7d\")",
         "print(f\"Precision: \x7bprecision:.4f\x7d\")",
         "print(f\"Recall:    \x7brecall:.4f\x7d\")",
         "print(f\"F1 Score:  \x7bf1:.4f\x7d\")"] ++ [""]),
        withNl l2 ∈ metricsSegs := by decide
    exact hmem l hl
  · rw [metricsLines, if_neg ht] at hl
    have hmem : ∀ l2 ∈ (["# === EVALUATION ===",
        "y_pred = model.predict(X_test)", ""] ++
        ["mse = mean_squared_error(y_test, y_pred)",
         "mae = mean_absolute_error(y_test, y_pred)",
         "r2 = r2_score(y_test, y_pred)",
         "",
         "print(f\"MSE: \x7bmse:.4f\x7d\")",
         "print(f\"MAE: \x7bmae:.4f\x7d\")",
         "print(f\"R2:  \x7br2:.4f\x7d\")"] ++ [""]),
        withNl l2 ∈ metricsSegs := by decide
    exact hmem l hl

theorem lineClears_header (kc : Char) (kt : List Char)
    (hsegs : ∀ s ∈ headerSegs, segCleanB (kc :: kt) s = true) :
    ∀ l ∈ headerLines, Clears (kc :: kt) (withNl l) := by
  intro l hl
  refine segClean_sound _ (withNl l) (hsegs (withNl l) ?_)
  exact List.mem_map.mpr ⟨l, hl, rfl⟩

theorem lineClears_block (kc : Char) (kt : List Char)
    (hsafe : safeChar kc = false) (hnum : isNumDotCh kc = false)
    (n : Node) (t : String) (hg : goodParams n)
    (hsegs : ∀ s ∈ tmplSegsOf n.data.blockType, segCleanB (kc :: kt) s = true) :
    ∀ l ∈ (blockLines n t).1, Clears (kc :: kt) (withNl l) := by
  by_cases h1 : n.data.blockType = "dataset"
  · rcases (by rw [goodParams, h1] at hg; exact hg :
        (∃ fp, (nodeParams n).lookup "file_path" = some (.vstr fp)
          ∧ safeStrB fp = true)
        ∧ (∃ tg, (nodeParams n).lookup "target" = some (.vstr tg)
          ∧ safeStrB tg = true)) with ⟨⟨fp, hfp, hfps⟩, ⟨tg, htg, htgs⟩⟩
    rw [h1] at hsegs
    simp only [blockLines, h1]
    refine lineClears_dataset kc kt hsafe (nodeParams n) ?_ ?_ hsegs
    · rw [strParam_of_good _ _ _ _ hfp hfps]
      simp only [safeStrB, Bool.and_eq_true] at hfps
      exact hfps.2
    · rw [strParam_of_good _ _ _ _ htg htgs]
      simp only [safeStrB, Bool.and_eq_true] at htgs
      exact htgs.2
  by_cases h2 : n.data.blockType = "split"
  · rcases (by rw [goodParams, h2] at hg; exact hg :
        ∃ q, (nodeParams n).lookup "test_size" = some (.vnum q)
          ∧ goodNumB q = true) with ⟨q, hq, hqg⟩
    rw [h2] at hsegs
    simp only [blockLines, h2]
    refine lineClears_split kc kt hnum (nodeParams n) ?_ hsegs
    rw [numParamStr_of_good _ _ _ _ hq]
    exact jsNumToChars_numdot q hqg
  by_cases h3 : n.data.blockType = "model"
  · rcases (by rw [goodParams, h3] at hg; exact hg :
        (∃ tk, (nodeParams n).lookup "task" = some (.vstr tk)
          ∧ safeStrB tk = true)
        ∧ (∃ ne, (nodeParams n).lookup "n_estimators" = some (.vnum ne)
          ∧ goodIntB ne = true)
        ∧ (∃ md, (nodeParams n).lookup "max_depth" = some (.vnum md)
          ∧ goodIntB md = true)) with
      ⟨⟨tk, htk, htks⟩, ⟨ne, hne, hneg⟩, ⟨md, hmd, hmdg⟩⟩
    rw [h3] at hsegs
    simp only [blockLines, h3]
    refine lineClears_model kc kt hsafe hnum (nodeParams n) ?_ ?_ ?_ hsegs
    · rw [strParam_of_good _ _ _ _ htk htks]
      simp only [safeStrB, Bool.and_eq_true] at htks
      exact htks.2
    · rw [numParamStr_of_good _ _ _ _ hne]
      exact jsNumToChars_numdot ne (goodNum_of_goodInt ne hneg)
    · rw [numParamStr_of_good _ _ _ _ hmd]
      exact jsNumToChars_numdot md (goodNum_of_goodInt md hmdg)
  by_cases h4 : n.data.blockType = "trainer"
  · rw [h4] at hsegs
    simp only [blockLines, h4]
    exact lineClears_trainer kc kt hsegs
  by_cases h5 : n.data.blockType = "metrics"
  · rw [h5] at hsegs
    simp only [blockLines, h5]
    exact lineClears_metrics kc kt t hsegs
  have hbl : (blockLines n t).1 = [] := by
    simp only [blockLines]
  rw [hbl]
  intro l hl
  exact absurd hl (List.not_mem_nil l)

theorem lineClears_renderBlocks (kc : Char) (kt : List Char)
    (hsafe : safeChar kc = false) (hnum : isNumDotCh kc = false) :
    ∀ (ns : List Node) (t : String),
      (∀ n ∈ ns, goodParams n) →
      (∀ n ∈ ns, ∀ s ∈ tmplSegsOf n.data.blockType,
        segCleanB (kc :: kt) s = true) →
      ∀ l ∈ renderBlocks ns t, Clears (kc :: kt) (withNl l) := by
  intro ns
  induction ns with
  | nil =>
      intro t _ _ l hl
      exact absurd hl (List.not_mem_nil l)
  | cons n rest ih =>
      intro t hg hsegs l hl
      simp only [renderBlocks] at hl
      rcases List.mem_append.mp hl with hl | hl
      · exact lineClears_block kc kt hsafe hnum n t
          (hg n (List.mem_cons_self _ _)) (hsegs n (List.mem_cons_self _ _)) l hl
      · exact ih (blockLines n t).2 (fun x hx => hg x (List.mem_cons_of_mem _ hx))
          (fun x hx => hsegs x (List.mem_cons_of_mem _ hx)) l hl

/-- A marker key with no matching text anywhere: every line of the joined
stream clears it, so the regex finds nothing. -/
theorem findMatch_missing (keyS : String) (sh : MShape) (ls : List String)
    (hlast : ls.getLast? = some "")
    (hclear : ∀ l ∈ ls, Clears keyS.data (withNl l)) :
    findMatch keyS sh (joinLn ls) = none := by
  rw [findMatch, joinLn_data_last_empty ls hlast]
  rw [findMatchL_none_of_clears keyS.data sh _ (clears_charBlob _ _
    (fun l hl => hclear l (List.dropLast_subset ls hl)))]
  rfl

/-- Case analysis on which template a block type renders. -/
theorem tmplSegsOf_cases (bt : String) (P : List (List Char) → Prop)
    (hda : bt = "dataset" → P datasetSegs)
    (hsp : bt = "split" → P splitSegs)
    (hmo : bt = "model" → P modelSegs)
    (htr : bt = "trainer" → P trainerSegs)
    (hme : bt = "metrics" → P metricsSegs)
    (hel : P []) :
    P (tmplSegsOf bt) := by
  by_cases h1 : bt = "dataset"
  · rw [h1]; exact hda h1
  by_cases h2 : bt = "split"
  · rw [h2]; exact hsp h2
  by_cases h3 : bt = "model"
  · rw [h3]; exact hmo h3
  by_cases h4 : bt = "trainer"
  · rw [h4]; exact htr h4
  by_cases h5 : bt = "metrics"
  · rw [h5]; exact hme h5
  have he : tmplSegsOf bt = [] := by
    simp only [tmplSegsOf]
  rw [he]
  exact hel

theorem segsOk_filePath (bt : String) (hbt : bt ≠ "dataset") :
    ∀ s ∈ tmplSegsOf bt, segCleanB "FILE_PATH".data s = true := by
  refine tmplSegsOf_cases bt
    (fun segs => ∀ s ∈ segs, segCleanB "FILE_PATH".data s = true)
    (fun h => absurd h hbt) (fun _ => by decide) (fun _ => by decide)
    (fun _ => by decide) (fun _ => by decide) ?_
  intro s hs
  exact absurd hs (List.not_mem_nil s)

theorem segsOk_target (bt : String) (hbt : bt ≠ "dataset") :
    ∀ s ∈ tmplSegsOf bt, segCleanB "TARGET_COLUMN".data s = true := by
  refine tmplSegsOf_cases bt
    (fun segs => ∀ s ∈ segs, segCleanB "TARGET_COLUMN".data s = true)
    (fun h => absurd h hbt) (fun _ => by decide) (fun _ => by decide)
    (fun _ => by decide) (fun _ => by decide) ?_
  intro s hs
  exact absurd hs (List.not_mem_nil s)

theorem segsOk_testSize (bt : String) (hbt : bt ≠ "split") :
    ∀ s ∈ tmplSegsOf bt, segCleanB "TEST_SIZE".data s = true := by
  refine tmplSegsOf_cases bt
    (fun segs => ∀ s ∈ segs, segCleanB "TEST_SIZE".data s = true)
    (fun _ => by decide) (fun h => absurd h hbt) (fun _ => by decide)
    (fun _ => by decide) (fun _ => by decide) ?_
  intro s hs
  exact absurd hs (List.not_mem_nil s)

theorem segsOk_taskType (bt : String) (hbt : bt ≠ "model") :
    ∀ s ∈ tmplSegsOf bt, segCleanB "TASK_TYPE".data s = true := by
  refine tmplSegsOf_cases bt
    (fun segs => ∀ s ∈ segs, segCleanB "TASK_TYPE".data s = true)
    (fun _ => by decide) (fun _ => by decide) (fun h => absurd h hbt)
    (fun _ => by decide) (fun _ => by decide) ?_
  intro s hs
  exact absurd hs (List.not_mem_nil s)

theorem segsOk_nEstimators (bt : String) (hbt : bt ≠ "model") :
    ∀ s ∈ tmplSegsOf bt, segCleanB "N_ESTIMATORS".data s = true := by
  refine tmplSegsOf_cases bt
    (fun segs => ∀ s ∈ segs, segCleanB "N_ESTIMATORS".data s = true)
    (fun _ => by decide) (fun _ => by decide) (fun h => absurd h hbt)
    (fun _ => by decide) (fun _ => by decide) ?_
  intro s hs
  exact absurd hs (List.not_mem_nil s)

theorem segsOk_maxDepth (bt : String) (hbt : bt ≠ "model") :
    ∀ s ∈ tmplSegsOf bt, segCleanB "MAX_DEPTH".data s = true := by
  refine tmplSegsOf_cases bt
    (fun segs => ∀ s ∈ segs, segCleanB "MAX_DEPTH".data s = true)
    (fun _ => by decide) (fun _ => by decide) (fun h => absurd h hbt)
    (fun _ => by decide) (fun _ => by decide) ?_
  intro s hs
  exact absurd hs (List.not_mem_nil s)

/-- Generic absent-marker lemma: when no rendered block carries the key
and the key clears the header, the regex has no match in the generated
text. -/
theorem findMatch_absent (keyS : String) (sh : MShape) (kc : Char)
    (kt : List Char) (hkey : keyS.data = kc :: kt)
    (hsafe : safeChar kc = false) (hnum : isNumDotCh kc = false)
    (sorted : List Node) (t0 : String)
    (hg : ∀ n ∈ sorted, goodParams n)
    (hhd : ∀ s ∈ headerSegs, segCleanB (kc :: kt) s = true)
    (hsegs : ∀ n ∈ sorted, ∀ s ∈ tmplSegsOf n.data.blockType,
      segCleanB (kc :: kt) s = true) :
    findMatch keyS sh (joinLn (headerLines ++ renderBlocks sorted t0))
      = none := by
  refine findMatch_missing keyS sh _ (allLines_last sorted t0) ?_
  intro l hl
  rw [hkey]
  rcases List.mem_append.mp hl with hl | hl
  · exact lineClears_header kc kt hhd l hl
  · exact lineClears_renderBlocks kc kt hsafe hnum sorted t0 hg hsegs l hl

/-! ## Matching the generated marker lines -/

theorem shape_quoted (key vd blob : List Char) :
    (key ++ [' ', '=', ' ', '"'] ++ (vd ++ ['"', '\n'])) ++ blob
      = key ++ ' ' :: '=' :: ' ' :: '"' :: (vd ++ '"' :: '\n' :: blob) := by
  simp [List.append_assoc]

theorem shape_num (key vd blob : List Char) :
    (key ++ [' ', '=', ' '] ++ (vd ++ ['\n'])) ++ blob
      = key ++ ' ' :: '=' :: ' ' :: (vd ++ '\n' :: blob) := by
  simp [List.append_assoc]

theorem safe_data_ne (v : String) (h : safeStrB v = true) : v.data ≠ [] := by
  have h2 := safe_ne_empty v h
  intro hc
  exact h2 (by cases v; simp_all)

theorem quote_false_of_safe (v : String) (h : safeStrB v = true) :
    ∀ c ∈ v.data, isQuoteCh c = false := by
  intro c hc
  have h2 := safe_all v h c hc
  simp only [safeChar, Bool.and_eq_true, Bool.not_eq_true'] at h2
  simp only [isQuoteCh, Bool.or_eq_false_iff]
  exact ⟨h2.1.1, h2.1.2⟩

theorem matchAt_marker_quoted (keyS pre v : String) (blob : List Char)
    (hpre : pre.data = keyS.data ++ [' ', '=', ' ', '"'])
    (hv : v.data ≠ []) (hq : ∀ c ∈ v.data, isQuoteCh c = false) :
    matchAt keyS.data .quoted (withNl (pre ++ v ++ "\"") ++ blob)
      = some v.data := by
  rw [withNl_append2, hpre]
  have h2 : withNl "\"" = ['"', '\n'] := rfl
  rw [h2, shape_quoted]
  exact matchAt_quoted keyS.data v.data _ hv hq

theorem matchAt_marker_float (keyS pre v : String) (blob : List Char)
    (hpre : pre.data = keyS.data ++ [' ', '=', ' '])
    (hv : v.data ≠ []) (hall : ∀ c ∈ v.data, isNumDotCh c = true) :
    matchAt keyS.data .floatLike (withNl (pre ++ v) ++ blob)
      = some v.data := by
  rw [withNl_append1, withNl, hpre, shape_num]
  exact matchAt_float keyS.data v.data _ hv hall

theorem matchAt_marker_int (keyS pre v : String) (blob : List Char)
    (hpre : pre.data = keyS.data ++ [' ', '=', ' '])
    (hv : v.data ≠ []) (hall : ∀ c ∈ v.data, isDigitCh c = true) :
    matchAt keyS.data .intLike (withNl (pre ++ v) ++ blob)
      = some v.data := by
  rw [withNl_append1, withNl, hpre, shape_num]
  exact matchAt_int keyS.data v.data _ hv hall

theorem present_filePath (sorted : List Node) (t0 : String)
    (p q : List Node) (d : Node)
    (hsplit : sorted = p ++ d :: q)
    (hdt : d.data.blockType = "dataset")
    (hgp : ∀ n ∈ p, goodParams n)
    (hpno : ∀ n ∈ p, n.data.blockType ≠ "dataset")
    (fp : String)
    (hfp : (nodeParams d).lookup "file_path" = some (.vstr fp))
    (hfps : safeStrB fp = true) :
    findMatch "FILE_PATH" .quoted
      (joinLn (headerLines ++ renderBlocks sorted t0)) = some fp := by
  have hds : datasetLines (nodeParams d)
      = "# === DATASET CONFIG ===" :: ("FILE_PATH = \"" ++ fp ++ "\"")
        :: ["TARGET_COLUMN = \""
              ++ strParam (nodeParams d) "target" "target" ++ "\"",
            "", "df = pd.read_csv(FILE_PATH)",
            "X = df.drop(columns=[TARGET_COLUMN])", "y = df[TARGET_COLUMN]",
            "print(f\"Loaded \x7blen(df)\x7d rows, \x7blen(X.columns)\x7d features\")",
            ""] := by
    simp only [datasetLines]
    rw [strParam_of_good _ _ _ _ hfp hfps]
  refine findMatch_locate "FILE_PATH" .quoted
    (headerLines ++ renderBlocks sorted t0)
    (headerLines ++ renderBlocks p t0 ++ ["# === DATASET CONFIG ==="])
    (("TARGET_COLUMN = \"" ++ strParam (nodeParams d) "target" "target" ++ "\"")
      :: (["", "df = pd.read_csv(FILE_PATH)",
           "X = df.drop(columns=[TARGET_COLUMN])", "y = df[TARGET_COLUMN]",
           "print(f\"Loaded \x7blen(df)\x7d rows, \x7blen(X.columns)\x7d features\")",
           ""] ++ renderBlocks q (taskFold p t0)))
    ("FILE_PATH = \"" ++ fp ++ "\"")
    ?_ (by intro hc; cases hc) (allLines_last sorted t0) ?_ fp.data ?_
  · rw [hsplit, renderBlocks_append]
    simp only [renderBlocks, blockLines, hdt]
    rw [hds]
    simp [List.append_assoc]
  · refine clears_charBlob _ _ ?_
    intro l hl
    have hkey : ("FILE_PATH".data : List Char) = 'F' :: "ILE_PATH".data := rfl
    rw [hkey]
    rcases List.mem_append.mp hl with hl2 | hl2
    · rcases List.mem_append.mp hl2 with hl3 | hl3
      · exact lineClears_header 'F' _ (by decide) l hl3
      · exact lineClears_renderBlocks 'F' _ (by decide) (by decide) p t0 hgp
          (fun n hn => segsOk_filePath _ (hpno n hn)) l hl3
    · have hle : l = "# === DATASET CONFIG ===" := List.mem_singleton.mp hl2
      subst hle
      exact segClean_sound _ _ (by decide)
  · intro blob
    exact matchAt_marker_quoted "FILE_PATH" "FILE_PATH = \"" fp blob
      (by decide) (safe_data_ne fp hfps) (quote_false_of_safe fp hfps)

theorem present_target (sorted : List Node) (t0 : String)
    (p q : List Node) (d : Node)
    (hsplit : sorted = p ++ d :: q)
    (hdt : d.data.blockType = "dataset")
    (hgp : ∀ n ∈ p, goodParams n)
    (hpno : ∀ n ∈ p, n.data.blockType ≠ "dataset")
    (fp tg : String)
    (hfp : (nodeParams d).lookup "file_path" = some (.vstr fp))
    (hfps : safeStrB fp = true)
    (htg : (nodeParams d).lookup "target" = some (.vstr tg))
    (htgs : safeStrB tg = true) :
    findMatch "TARGET_COLUMN" .quoted
      (joinLn (headerLines ++ renderBlocks sorted t0)) = some tg := by
  have hds : datasetLines (nodeParams d)
      = "# === DATASET CONFIG ===" :: ("FILE_PATH = \"" ++ fp ++ "\"")
        :: ("TARGET_COLUMN = \"" ++ tg ++ "\"")
        :: ["", "df = pd.read_csv(FILE_PATH)",
            "X = df.drop(columns=[TARGET_COLUMN])", "y = df[TARGET_COLUMN]",
            "print(f\"Loaded \x7blen(df)\x7d rows, \x7blen(X.columns)\x7d features\")",
            ""] := by
    simp only [datasetLines]
    rw [strParam_of_good _ _ _ _ hfp hfps, strParam_of_good _ _ _ _ htg htgs]
  refine findMatch_locate "TARGET_COLUMN" .quoted
    (headerLines ++ renderBlocks sorted t0)
    (headerLines ++ renderBlocks p t0
      ++ ["# === DATASET CONFIG ===", "FILE_PATH = \"" ++ fp ++ "\""])
    ("" :: (["df = pd.read_csv(FILE_PATH)",
           "X = df.drop(columns=[TARGET_COLUMN])", "y = df[TARGET_COLUMN]",
           "print(f\"Loaded \x7blen(df)\x7d rows, \x7blen(X.columns)\x7d features\")",
           ""] ++ renderBlocks q (taskFold p t0)))
    ("TARGET_COLUMN = \"" ++ tg ++ "\"")
    ?_ (by intro hc; cases hc) (allLines_last sorted t0) ?_ tg.data ?_
  · rw [hsplit, renderBlocks_append]
    simp only [renderBlocks, blockLines, hdt]
    rw [hds]
    simp [List.append_assoc]
  · refine clears_charBlob _ _ ?_
    intro l hl
    have hkey : ("TARGET_COLUMN".data : List Char) = 'T' :: "ARGET_COLUMN".data := rfl
    rw [hkey]
    rcases List.mem_append.mp hl with hl2 | hl2
    · rcases List.mem_append.mp hl2 with hl3 | hl3
      · exact lineClears_header 'T' _ (by decide) l hl3
      · exact lineClears_renderBlocks 'T' _ (by decide) (by decide) p t0 hgp
          (fun n hn => segsOk_target _ (hpno n hn)) l hl3
    · simp only [List.mem_cons, List.not_mem_nil, or_false] at hl2
      rcases hl2 with rfl | rfl
      · exact segClean_sound _ _ (by decide)
      · rw [withNl_append2]
        refine clears_append _ _ _ (segClean_sound _ _ (by decide)) ?_
        refine clears_append _ _ _
          (clears_of_safe 'T' _ (by decide) fp
            (by simp only [safeStrB, Bool.and_eq_true] at hfps; exact hfps.2)) ?_
        exact segClean_sound _ _ (by decide)
  · intro blob
    exact matchAt_marker_quoted "TARGET_COLUMN" "TARGET_COLUMN = \"" tg blob
      (by decide) (safe_data_ne tg htgs) (quote_false_of_safe tg htgs)

theorem present_testSize (sorted : List Node) (t0 : String)
    (p q : List Node) (d : Node)
    (hsplit : sorted = p ++ d :: q)
    (hdt : d.data.blockType = "split")
    (hgp : ∀ n ∈ p, goodParams n)
    (hpno : ∀ n ∈ p, n.data.blockType ≠ "split")
    (qv : JsNum)
    (hts : (nodeParams d).lookup "test_size" = some (.vnum qv))
    (htsg : goodNumB qv = true) :
    findMatch "TEST_SIZE" .floatLike
      (joinLn (headerLines ++ renderBlocks sorted t0))
      = some (jsNumToStr qv) := by
  have hds : splitLines (nodeParams d)
      = "# === SPLIT CONFIG ===" :: ("TEST_SIZE = " ++ jsNumToStr qv)
        :: ["", "X_train, X_test, y_train, y_test = train_test_split(",
            "    X, y, test_size=TEST_SIZE, random_state=42", ")",
            "print(f\"Train: \x7blen(X_train)\x7d, Test: \x7blen(X_test)\x7d\")",
            ""] := by
    simp only [splitLines]
    rw [numParamStr_of_good _ _ _ _ hts]
  refine findMatch_locate "TEST_SIZE" .floatLike
    (headerLines ++ renderBlocks sorted t0)
    (headerLines ++ renderBlocks p t0 ++ ["# === SPLIT CONFIG ==="])
    ("" :: (["X_train, X_test, y_train, y_test = train_test_split(",
           "    X, y, test_size=TEST_SIZE, random_state=42", ")",
           "print(f\"Train: \x7blen(X_train)\x7d, Test: \x7blen(X_test)\x7d\")",
           ""] ++ renderBlocks q (taskFold p t0)))
    ("TEST_SIZE = " ++ jsNumToStr qv)
    ?_ (by intro hc; cases hc) (allLines_last sorted t0) ?_
    (jsNumToStr qv).data ?_
  · rw [hsplit, renderBlocks_append]
    simp only [renderBlocks, blockLines, hdt]
    rw [hds]
    simp [List.append_assoc]
  · refine clears_charBlob _ _ ?_
    intro l hl
    have hkey : ("TEST_SIZE".data : List Char) = 'T' :: "EST_SIZE".data := rfl
    rw [hkey]
    rcases List.mem_append.mp hl with hl2 | hl2
    · rcases List.mem_append.mp hl2 with hl3 | hl3
      · exact lineClears_header 'T' _ (by decide) l hl3
      · exact lineClears_renderBlocks 'T' _ (by decide) (by decide) p t0 hgp
          (fun n hn => segsOk_testSize _ (hpno n hn)) l hl3
    · have hle : l = "# === SPLIT CONFIG ===" := List.mem_singleton.mp hl2
      subst hle
      exact segClean_sound _ _ (by decide)
  · intro blob
    exact matchAt_marker_float "TEST_SIZE" "TEST_SIZE = " (jsNumToStr qv) blob
      (by decide) (jsNumToChars_ne_nil qv htsg) (jsNumToChars_numdot qv htsg)

theorem jsNumToChars_digits (q : JsNum) (h : goodIntB q = true) :
    ∀ c ∈ jsNumToChars q, isDigitCh c = true := by
  cases q with
  | nan => simp [goodIntB] at h
  | dec neg i frac =>
      cases neg with
      | true => simp [goodIntB] at h
      | false =>
          simp only [goodIntB, List.isEmpty_iff] at h
          subst h
          rw [jsNumToChars_int]
          exact natDigits_all_digits i

theorem present_taskType (sorted : List Node) (t0 : String)
    (p q : List Node) (d : Node)
    (hsplit : sorted = p ++ d :: q)
    (hdt : d.data.blockType = "model")
    (hgp : ∀ n ∈ p, goodParams n)
    (hpno : ∀ n ∈ p, n.data.blockType ≠ "model")
    (tk : String) (ne md : JsNum)
    (htk : (nodeParams d).lookup "task" = some (.vstr tk))
    (htks : safeStrB tk = true)
    (hne : (nodeParams d).lookup "n_estimators" = some (.vnum ne))
    (hmd : (nodeParams d).lookup "max_depth" = some (.vnum md)) :
    findMatch "TASK_TYPE" .quoted
      (joinLn (headerLines ++ renderBlocks sorted t0)) = some tk := by
  have hds : (modelLines (nodeParams d)).1
      = "# === MODEL CONFIG ===" :: ("TASK_TYPE = \"" ++ tk ++ "\"")
        :: ("N_ESTIMATORS = " ++ jsNumToStr ne)
        :: ("MAX_DEPTH = " ++ jsNumToStr md)
        :: "" :: ("model = " ++ (if tk = "classification"
            then "RandomForestClassifier" else "RandomForestRegressor") ++ "(")
        :: ["    n_estimators=N_ESTIMATORS,", "    max_depth=MAX_DEPTH,",
            "    random_state=42,", "    n_jobs=-1", ")", ""] := by
    simp only [modelLines]
    rw [strParam_of_good _ _ _ _ htk htks, numParamStr_of_good _ _ _ _ hne,
      numParamStr_of_good _ _ _ _ hmd]
  have htk2 : (modelLines (nodeParams d)).2 = tk := by
    simp only [modelLines]
    rw [strParam_of_good _ _ _ _ htk htks]
  refine findMatch_locate "TASK_TYPE" .quoted
    (headerLines ++ renderBlocks sorted t0)
    (headerLines ++ renderBlocks p t0 ++ ["# === MODEL CONFIG ==="])
    (("N_ESTIMATORS = " ++ jsNumToStr ne)
      :: (("MAX_DEPTH = " ++ jsNumToStr md)
        :: "" :: ("model = " ++ (if tk = "classification"
            then "RandomForestClassifier" else "RandomForestRegressor") ++ "(")
        :: ["    n_estimators=N_ESTIMATORS,", "    max_depth=MAX_DEPTH,",
            "    random_state=42,", "    n_jobs=-1", ")", ""]
        ++ renderBlocks q tk))
    ("TASK_TYPE = \"" ++ tk ++ "\"")
    ?_ (by intro hc; cases hc) (allLines_last sorted t0) ?_ tk.data ?_
  · rw [hsplit, renderBlocks_append]
    simp only [renderBlocks, blockLines, hdt]
    rw [hds, htk2]
    simp [List.append_assoc]
  · refine clears_charBlob _ _ ?_
    intro l hl
    have hkey : ("TASK_TYPE".data : List Char) = 'T' :: "ASK_TYPE".data := rfl
    rw [hkey]
    rcases List.mem_append.mp hl with hl2 | hl2
    · rcases List.mem_append.mp hl2 with hl3 | hl3
      · exact lineClears_header 'T' _ (by decide) l hl3
      · exact lineClears_renderBlocks 'T' _ (by decide) (by decide) p t0 hgp
          (fun n hn => segsOk_taskType _ (hpno n hn)) l hl3
    · have hle : l = "# === MODEL CONFIG ===" := List.mem_singleton.mp hl2
      subst hle
      exact segClean_sound _ _ (by decide)
  · intro blob
    exact matchAt_marker_quoted "TASK_TYPE" "TASK_TYPE = \"" tk blob
      (by decide) (safe_data_ne tk htks) (quote_false_of_safe tk htks)

theorem present_nEstimators (sorted : List Node) (t0 : String)
    (p q : List Node) (d : Node)
    (hsplit : sorted = p ++ d :: q)
    (hdt : d.data.blockType = "model")
    (hgp : ∀ n ∈ p, goodParams n)
    (hpno : ∀ n ∈ p, n.data.blockType ≠ "model")
    (tk : String) (ne md : JsNum)
    (htk : (nodeParams d).lookup "task" = some (.vstr tk))
    (htks : safeStrB tk = true)
    (hne : (nodeParams d).lookup "n_estimators" = some (.vnum ne))
    (hneg : goodIntB ne = true)
    (hmd : (nodeParams d).lookup "max_depth" = some (.vnum md)) :
    findMatch "N_ESTIMATORS" .intLike
      (joinLn (headerLines ++ renderBlocks sorted t0))
      = some (jsNumToStr ne) := by
  have hds : (modelLines (nodeParams d)).1
      = "# === MODEL CONFIG ===" :: ("TASK_TYPE = \"" ++ tk ++ "\"")
        :: ("N_ESTIMATORS = " ++ jsNumToStr ne)
        :: ("MAX_DEPTH = " ++ jsNumToStr md)
        :: "" :: ("model = " ++ (if tk = "classification"
            then "RandomForestClassifier" else "RandomForestRegressor") ++ "(")
        :: ["    n_estimators=N_ESTIMATORS,", "    max_depth=MAX_DEPTH,",
            "    random_state=42,", "    n_jobs=-1", ")", ""] := by
    simp only [modelLines]
    rw [strParam_of_good _ _ _ _ htk htks, numParamStr_of_good _ _ _ _ hne,
      numParamStr_of_good _ _ _ _ hmd]
  have htk2 : (modelLines (nodeParams d)).2 = tk := by
    simp only [modelLines]
    rw [strParam_of_good _ _ _ _ htk htks]
  refine findMatch_locate "N_ESTIMATORS" .intLike
    (headerLines ++ renderBlocks sorted t0)
    (headerLines ++ renderBlocks p t0
      ++ ["# === MODEL CONFIG ===", "TASK_TYPE = \"" ++ tk ++ "\""])
    (("MAX_DEPTH = " ++ jsNumToStr md)
      :: ("" :: ("model = " ++ (if tk = "classification"
            then "RandomForestClassifier" else "RandomForestRegressor") ++ "(")
        :: ["    n_estimators=N_ESTIMATORS,", "    max_depth=MAX_DEPTH,",
            "    random_state=42,", "    n_jobs=-1", ")", ""]
        ++ renderBlocks q tk))
    ("N_ESTIMATORS = " ++ jsNumToStr ne)
    ?_ (by intro hc; cases hc) (allLines_last sorted t0) ?_
    (jsNumToStr ne).data ?_
  · rw [hsplit, renderBlocks_append]
    simp only [renderBlocks, blockLines, hdt]
    rw [hds, htk2]
    simp [List.append_assoc]
  · refine clears_charBlob _ _ ?_
    intro l hl
    have hkey : ("N_ESTIMATORS".data : List Char) = 'N' :: "_ESTIMATORS".data := rfl
    rw [hkey]
    rcases List.mem_append.mp hl with hl2 | hl2
    · rcases List.mem_append.mp hl2 with hl3 | hl3
      · exact lineClears_header 'N' _ (by decide) l hl3
      · exact lineClears_renderBlocks 'N' _ (by decide) (by decide) p t0 hgp
          (fun n hn => segsOk_nEstimators _ (hpno n hn)) l hl3
    · simp only [List.mem_cons, List.not_mem_nil, or_false] at hl2
      rcases hl2 with rfl | rfl
      · exact segClean_sound _ _ (by decide)
      · rw [withNl_append2]
        refine clears_append _ _ _ (segClean_sound _ _ (by decide)) ?_
        refine clears_append _ _ _
          (clears_of_safe 'N' _ (by decide) tk
            (by simp only [safeStrB, Bool.and_eq_true] at htks; exact htks.2)) ?_
        exact segClean_sound _ _ (by decide)
  · intro blob
    exact matchAt_marker_int "N_ESTIMATORS" "N_ESTIMATORS = " (jsNumToStr ne)
      blob (by decide) (jsNumToChars_ne_nil ne (goodNum_of_goodInt ne hneg))
      (jsNumToChars_digits ne hneg)

theorem present_maxDepth (sorted : List Node) (t0 : String)
    (p q : List Node) (d : Node)
    (hsplit : sorted = p ++ d :: q)
    (hdt : d.data.blockType = "model")
    (hgp : ∀ n ∈ p, goodParams n)
    (hpno : ∀ n ∈ p, n.data.blockType ≠ "model")
    (tk : String) (ne md : JsNum)
    (htk : (nodeParams d).lookup "task" = some (.vstr tk))
    (htks : safeStrB tk = true)
    (hne : (nodeParams d).lookup "n_estimators" = some (.vnum ne))
    (hneg : goodIntB ne = true)
    (hmd : (nodeParams d).lookup "max_depth" = some (.vnum md))
    (hmdg : goodIntB md = true) :
    findMatch "MAX_DEPTH" .intLike
      (joinLn (headerLines ++ renderBlocks sorted t0))
      = some (jsNumToStr md) := by
  have hds : (modelLines (nodeParams d)).1
      = "# === MODEL CONFIG ===" :: ("TASK_TYPE = \"" ++ tk ++ "\"")
        :: ("N_ESTIMATORS = " ++ jsNumToStr ne)
        :: ("MAX_DEPTH = " ++ jsNumToStr md)
        :: "" :: ("model = " ++ (if tk = "classification"
            then "RandomForestClassifier" else "RandomForestRegressor") ++ "(")
        :: ["    n_estimators=N_ESTIMATORS,", "    max_depth=MAX_DEPTH,",
            "    random_state=42,", "    n_jobs=-1", ")", ""] := by
    simp only [modelLines]
    rw [strParam_of_good _ _ _ _ htk htks, numParamStr_of_good _ _ _ _ hne,
      numParamStr_of_good _ _ _ _ hmd]
  have htk2 : (modelLines (nodeParams d)).2 = tk := by
    simp only [modelLines]
    rw [strParam_of_good _ _ _ _ htk htks]
  refine findMatch_locate "MAX_DEPTH" .intLike
    (headerLines ++ renderBlocks sorted t0)
    (headerLines ++ renderBlocks p t0
      ++ ["# === MODEL CONFIG ===", "TASK_TYPE = \"" ++ tk ++ "\"",
          "N_ESTIMATORS = " ++ jsNumToStr ne])
    ("" :: (("model = " ++ (if tk = "classification"
            then "RandomForestClassifier" else "RandomForestRegressor") ++ "(")
        :: ["    n_estimators=N_ESTIMATORS,", "    max_depth=MAX_DEPTH,",
            "    random_state=42,", "    n_jobs=-1", ")", ""]
        ++ renderBlocks q tk))
    ("MAX_DEPTH = " ++ jsNumToStr md)
    ?_ (by intro hc; cases hc) (allLines_last sorted t0) ?_
    (jsNumToStr md).data ?_
  · rw [hsplit, renderBlocks_append]
    simp only [renderBlocks, blockLines, hdt]
    rw [hds, htk2]
    simp [List.append_assoc]
  · refine clears_charBlob _ _ ?_
    intro l hl
    have hkey : ("MAX_DEPTH".data : List Char) = 'M' :: "AX_DEPTH".data := rfl
    rw [hkey]
    rcases List.mem_append.mp hl with hl2 | hl2
    · rcases List.mem_append.mp hl2 with hl3 | hl3
      · exact lineClears_header 'M' _ (by decide) l hl3
      · exact lineClears_renderBlocks 'M' _ (by decide) (by decide) p t0 hgp
          (fun n hn => segsOk_maxDepth _ (hpno n hn)) l hl3
    · simp only [List.mem_cons, List.not_mem_nil, or_false] at hl2
      rcases hl2 with rfl | rfl | rfl
      · exact segClean_sound _ _ (by decide)
      · rw [withNl_append2]
        refine clears_append _ _ _ (segClean_sound _ _ (by decide)) ?_
        refine clears_append _ _ _
          (clears_of_safe 'M' _ (by decide) tk
            (by simp only [safeStrB, Bool.and_eq_true] at htks; exact htks.2)) ?_
        exact segClean_sound _ _ (by decide)
      · rw [withNl_append1, withNl]
        refine clears_append _ _ _ (segClean_sound _ _ (by decide)) ?_
        refine clears_append _ _ _
          (clears_of_numdot 'M' _ (by decide) _
            (jsNumToChars_numdot ne (goodNum_of_goodInt ne hneg))) ?_
        exact segClean_sound _ _ (by decide)
  · intro blob
    exact matchAt_marker_int "MAX_DEPTH" "MAX_DEPTH = " (jsNumToStr md)
      blob (by decide) (jsNumToChars_ne_nil md (goodNum_of_goodInt md hmdg))
      (jsNumToChars_digits md hmdg)

/-! ## The sorted array as a permutation of the nodes -/

theorem nodeGet_of_nodup (nodes : List Node)
    (hnd : (nodes.map (fun n => n.id)).Nodup) (n : Node) (hn : n ∈ nodes) :
    nodeGet nodes n.id = some n := by
  rw [nodeGet]
  cases hfind : nodes.reverse.find? (fun m => m.id = n.id) with
  | none =>
      exfalso
      have h2 := List.find?_eq_none.mp hfind n (List.mem_reverse.mpr hn)
      simp at h2
  | some m =>
      have hm : m ∈ nodes := List.mem_reverse.mp (List.mem_of_find?_eq_some hfind)
      have hid : m.id = n.id := by
        have h3 := List.find?_some hfind
        simpa using h3
      have h4 := List.inj_on_of_nodup_map hnd hm hn hid
      rw [h4]

theorem filterMap_id_of (l : List Node) (f : Node → Option Node)
    (h : ∀ a ∈ l, f a = some a) : l.filterMap f = l := by
  induction l with
  | nil => rfl
  | cons a t ih =>
      simp [List.filterMap_cons, h a (List.mem_cons_self _ _),
        ih (fun x hx => h x (List.mem_cons_of_mem _ hx))]

theorem sortedNodes_perm (nodes : List Node) (edges : List Edge)
    (hnd : (nodes.map (fun n => n.id)).Nodup) :
    (sortedNodes nodes edges).Perm nodes := by
  rcases topoRun_spec nodes edges with ⟨st, hrun, houtnd, hmem⟩
  have hids : topoIds nodes edges = st.out := by rw [topoIds, hrun]
  rw [sortedNodes, hids]
  have hperm1 : st.out.Perm (nodes.map (fun n => n.id)) :=
    (List.perm_ext_iff_of_nodup houtnd hnd).mpr hmem
  have hperm2 := hperm1.filterMap (nodeGet nodes)
  have heq : (nodes.map (fun n => n.id)).filterMap (nodeGet nodes) = nodes := by
    rw [List.filterMap_map]
    exact filterMap_id_of nodes _ (fun a ha => nodeGet_of_nodup nodes hnd a ha)
  rw [heq] at hperm2
  exact hperm2

/-! ## Uniqueness of each configurable block type -/

theorem split_by_type (l : List Node) (bt : String) :
    (∀ n ∈ l, n.data.blockType ≠ bt)
    ∨ ∃ p d q2, l = p ++ d :: q2 ∧ d.data.blockType = bt
        ∧ (∀ n ∈ p, n.data.blockType ≠ bt) := by
  induction l with
  | nil =>
      left
      intro n hn
      exact absurd hn (List.not_mem_nil n)
  | cons a rest ih =>
      by_cases ha : a.data.blockType = bt
      · right
        exact ⟨[], a, rest, rfl, ha, fun n hn => absurd hn (List.not_mem_nil n)⟩
      · rcases ih with hno | ⟨p, d, q2, heq, hdbt, hpno⟩
        · left
          intro n hn
          rcases List.mem_cons.mp hn with rfl | hn2
          · exact ha
          · exact hno n hn2
        · right
          refine ⟨a :: p, d, q2, ?_, hdbt, ?_⟩
          · rw [heq]
            rfl
          · intro n hn
            rcases List.mem_cons.mp hn with rfl | hn2
            · exact ha
            · exact hpno n hn2

theorem eq_of_count_le_one (l : List Node) (hnd : l.Nodup) (bt : String)
    (hc : countType l bt ≤ 1) (a b : Node) (ha : a ∈ l) (hb : b ∈ l)
    (hab : a.data.blockType = bt) (hbb : b.data.blockType = bt) : a = b := by
  by_contra hne
  have ha2 : a ∈ l.filter (fun n => n.data.blockType == bt) :=
    List.mem_filter.mpr ⟨ha, by simp [hab]⟩
  have hb2 : b ∈ l.filter (fun n => n.data.blockType == bt) :=
    List.mem_filter.mpr ⟨hb, by simp [hbb]⟩
  have h2 : 1 < (l.filter (fun n => n.data.blockType == bt)).toFinset.card :=
    Finset.one_lt_card.mpr
      ⟨a, List.mem_toFinset.mpr ha2, b, List.mem_toFinset.mpr hb2, hne⟩
  have h3 := List.toFinset_card_le (l.filter (fun n => n.data.blockType == bt))
  rw [countType] at hc
  omega

/-! ## Spread-merge identity on matching patches -/

theorem lookup_mem (l : List (String × JsVal)) (k : String) (v : JsVal)
    (h : l.lookup k = some v) : (k, v) ∈ l := by
  induction l with
  | nil => cases h
  | cons kv t ih =>
      rcases kv with ⟨k1, v1⟩
      by_cases hk : (k == k1) = true
      · simp only [List.lookup_cons, hk] at h
        have hkk : k = k1 := by simpa using hk
        subst hkk
        injection h with h2
        subst h2
        exact List.mem_cons_self _ _
      · have hkf : (k == k1) = false := by
          simpa using hk
        simp only [List.lookup_cons, hkf] at h
        exact List.mem_cons_of_mem _ (ih h)

theorem lookup_isSome_of_mem (l : List (String × JsVal)) (k : String)
    (v : JsVal) (h : (k, v) ∈ l) : (l.lookup k).isSome = true := by
  induction l with
  | nil => exact absurd h (List.not_mem_nil _)
  | cons kv t ih =>
      rcases kv with ⟨k1, v1⟩
      by_cases hk : (k == k1) = true
      · simp only [List.lookup_cons, hk]
        rfl
      · have hkf : (k == k1) = false := by
          simpa using hk
        simp only [List.lookup_cons, hkf]
        rcases List.mem_cons.mp h with heq | hmem
        · exfalso
          have : k = k1 := by
            have h2 := congrArg Prod.fst heq
            simpa using h2
          rw [this] at hk
          exact hk (by simp)
        · exact ih hmem

theorem lookup_of_nodup (l : List (String × JsVal))
    (hnd : (l.map Prod.fst).Nodup) (k : String) (v : JsVal)
    (h : (k, v) ∈ l) : l.lookup k = some v := by
  induction l with
  | nil => exact absurd h (List.not_mem_nil _)
  | cons kv t ih =>
      rcases kv with ⟨k1, v1⟩
      rcases List.mem_cons.mp h with heq | hmem
      · cases heq
        rw [List.lookup_cons]
        simp
      · have hk : (k == k1) = false := by
          have h1 : k1 ∉ t.map Prod.fst := by
            simp only [List.map_cons, List.nodup_cons] at hnd
            exact hnd.1
          have h2 : k ∈ t.map Prod.fst := List.mem_map.mpr ⟨(k, v), hmem, rfl⟩
          simp only [beq_eq_false_iff_ne, ne_eq]
          intro hc
          rw [hc] at h2
          exact h1 h2
        rw [List.lookup_cons]
        simp only [hk]
        refine ih ?_ hmem
        simp only [List.map_cons, List.nodup_cons] at hnd
        exact hnd.2

theorem map_self (l : List (String × JsVal))
    (f : String × JsVal → String × JsVal) (h : ∀ x ∈ l, f x = x) :
    l.map f = l := by
  induction l with
  | nil => rfl
  | cons a t ih =>
      rw [List.map_cons, h a (List.mem_cons_self _ _),
        ih (fun x hx => h x (List.mem_cons_of_mem _ hx))]

/-- The object spread `{...params, ...patch}` is the identity when every
patch entry already stands in `params` with the same value (and `params`
has no duplicate keys, as a JavaScript object cannot). -/
theorem mergeParams_id (ps patch : List (String × JsVal))
    (hnd : (ps.map Prod.fst).Nodup)
    (hpv : ∀ k v, patch.lookup k = some v → ps.lookup k = some v) :
    mergeParams ps patch = ps := by
  rw [mergeParams]
  have hfilter : patch.filter (fun kv => (ps.lookup kv.1).isNone) = [] := by
    rw [List.filter_eq_nil_iff]
    intro kv hkv
    have h1 : (patch.lookup kv.1).isSome = true :=
      lookup_isSome_of_mem patch kv.1 kv.2 hkv
    rcases Option.isSome_iff_exists.mp h1 with ⟨v, hv⟩
    have h2 := hpv kv.1 v hv
    simp [h2]
  have hmap : ps.map (fun kv => (kv.1, (patch.lookup kv.1).getD kv.2)) = ps := by
    refine map_self _ _ ?_
    intro kv hkv
    cases hpl : patch.lookup kv.1 with
    | none => rfl
    | some v =>
        have h2 := hpv kv.1 v hpl
        have h3 := lookup_of_nodup ps hnd kv.1 kv.2 hkv
        rw [h3] at h2
        injection h2 with h4
        rw [← h4]
        rfl
  rw [hfilter, hmap, List.append_nil]

/-! ## Putting the round trip together -/

theorem parseFloat_round_good (q : JsNum) (h : goodNumB q = true) :
    parseFloatChars (jsNumToChars q) = q := by
  cases q with
  | nan => simp [goodNumB] at h
  | dec neg i frac =>
      cases neg with
      | true => simp [goodNumB] at h
      | false => exact parseFloat_round i frac h

theorem parseInt_round_good (q : JsNum) (h : goodIntB q = true) :
    parseIntChars (jsNumToChars q) = q := by
  cases q with
  | nan => simp [goodIntB] at h
  | dec neg i frac =>
      cases neg with
      | true => simp [goodIntB] at h
      | false =>
          simp only [goodIntB, List.isEmpty_iff] at h
          subst h
          rw [jsNumToChars_int]
          exact parseInt_round i

theorem applyTo_eq_self (c : ParsedConfig) (n : Node)
    (h : mergeParams (nodeParams n) (patchFor c n.data.blockType)
      = nodeParams n) :
    applyTo c n = n := by
  rcases n with ⟨i, bt, ps⟩
  simp only [applyTo]
  by_cases hemp : (patchFor c (NodeData.mk bt ps).blockType).isEmpty = true
  · rw [if_pos hemp]
  · rw [if_neg hemp]
    have h2 : mergeParams ps (patchFor c bt) = ps := h
    simp only [nodeParams]
    rw [h2]

theorem applyTo_other (c : ParsedConfig) (n : Node)
    (h : patchFor c n.data.blockType = []) : applyTo c n = n := by
  simp [applyTo, h]

theorem map_self_nodes (l : List Node) (f : Node → Node)
    (h : ∀ x ∈ l, f x = x) : l.map f = l := by
  induction l with
  | nil => rfl
  | cons a t ih =>
      rw [List.map_cons, h a (List.mem_cons_self _ _),
        ih (fun x hx => h x (List.mem_cons_of_mem _ hx))]

theorem roundtrip_core (nodes sorted : List Node) (code : String)
    (hcode : code = joinLn (headerLines ++ renderBlocks sorted "classification"))
    (hperm : sorted.Perm nodes)
    (hnodesnd : nodes.Nodup)
    (hkeys : ∀ n ∈ nodes, ((nodeParams n).map Prod.fst).Nodup)
    (hgood : ∀ n ∈ nodes, goodParams n)
    (hda : countType nodes "dataset" ≤ 1)
    (hsp : countType nodes "split" ≤ 1)
    (hmo : countType nodes "model" ≤ 1) :
    nodes.map (applyTo (parseCodeToConfig code)) = nodes := by
  have hgood2 : ∀ n ∈ sorted, goodParams n :=
    fun n hn => hgood n (hperm.mem_iff.mp hn)
  have hDS : (∃ dd ∈ nodes, dd.data.blockType = "dataset"
        ∧ ∃ fp tg, (nodeParams dd).lookup "file_path" = some (.vstr fp)
          ∧ (nodeParams dd).lookup "target" = some (.vstr tg)
          ∧ datasetPatch (parseCodeToConfig code)
              = [("file_path", .vstr fp), ("target", .vstr tg)])
      ∨ ((∀ n ∈ nodes, n.data.blockType ≠ "dataset")
        ∧ datasetPatch (parseCodeToConfig code) = []) := by
    rcases split_by_type sorted "dataset" with hno | ⟨p, dd, q2, hsplitd, hddt, hpno⟩
    · right
      refine ⟨fun n hn => hno n (hperm.mem_iff.mpr hn), ?_⟩
      have hF : findMatch "FILE_PATH" .quoted code = none := by
        rw [hcode]
        exact findMatch_absent "FILE_PATH" .quoted 'F' "ILE_PATH".data rfl
          (by decide) (by decide) sorted "classification" hgood2 (by decide)
          (fun n hn => segsOk_filePath _ (hno n hn))
      have hT : findMatch "TARGET_COLUMN" .quoted code = none := by
        rw [hcode]
        exact findMatch_absent "TARGET_COLUMN" .quoted 'T' "ARGET_COLUMN".data
          rfl (by decide) (by decide) sorted "classification" hgood2 (by decide)
          (fun n hn => segsOk_target _ (hno n hn))
      simp [datasetPatch, parseCodeToConfig, optEntry, hF, hT]
    · left
      have hddsorted : dd ∈ sorted := by
        rw [hsplitd]
        exact List.mem_append_right _ (List.mem_cons_self _ _)
      have hddmem : dd ∈ nodes := hperm.mem_iff.mp hddsorted
      have hgd := hgood2 dd hddsorted
      rcases (by rw [goodParams, hddt] at hgd; exact hgd :
          (∃ fp, (nodeParams dd).lookup "file_path" = some (.vstr fp)
            ∧ safeStrB fp = true)
          ∧ (∃ tg, (nodeParams dd).lookup "target" = some (.vstr tg)
            ∧ safeStrB tg = true)) with ⟨⟨fp, hfp, hfps⟩, ⟨tg, htg, htgs⟩⟩
      have hgp : ∀ n ∈ p, goodParams n := fun n hn => hgood2 n (by
        rw [hsplitd]
        exact List.mem_append_left _ hn)
      have hF : findMatch "FILE_PATH" .quoted code = some fp := by
        rw [hcode]
        exact present_filePath sorted "classification" p q2 dd hsplitd hddt
          hgp hpno fp hfp hfps
      have hT : findMatch "TARGET_COLUMN" .quoted code = some tg := by
        rw [hcode]
        exact present_target sorted "classification" p q2 dd hsplitd hddt
          hgp hpno fp tg hfp hfps htg htgs
      refine ⟨dd, hddmem, hddt, fp, tg, hfp, htg, ?_⟩
      simp [datasetPatch, parseCodeToConfig, optEntry, hF, hT]
  have hSP : (∃ ds ∈ nodes, ds.data.blockType = "split"
        ∧ ∃ qv, (nodeParams ds).lookup "test_size" = some (.vnum qv)
          ∧ splitPatch (parseCodeToConfig code) = [("test_size", .vnum qv)])
      ∨ ((∀ n ∈ nodes, n.data.blockType ≠ "split")
        ∧ splitPatch (parseCodeToConfig code) = []) := by
    rcases split_by_type sorted "split" with hno | ⟨p, ds, q2, hsplits, hdst, hpno⟩
    · right
      refine ⟨fun n hn => hno n (hperm.mem_iff.mpr hn), ?_⟩
      have hTS : findMatch "TEST_SIZE" .floatLike code = none := by
        rw [hcode]
        exact findMatch_absent "TEST_SIZE" .floatLike 'T' "EST_SIZE".data rfl
          (by decide) (by decide) sorted "classification" hgood2 (by decide)
          (fun n hn => segsOk_testSize _ (hno n hn))
      simp [splitPatch, parseCodeToConfig, optEntry, hTS]
    · left
      have hdssorted : ds ∈ sorted := by
        rw [hsplits]
        exact List.mem_append_right _ (List.mem_cons_self _ _)
      have hdsmem : ds ∈ nodes := hperm.mem_iff.mp hdssorted
      have hgd := hgood2 ds hdssorted
      rcases (by rw [goodParams, hdst] at hgd; exact hgd :
          ∃ qv, (nodeParams ds).lookup "test_size" = some (.vnum qv)
            ∧ goodNumB qv = true) with ⟨qv, hqv, hqg⟩
      have hgp : ∀ n ∈ p, goodParams n := fun n hn => hgood2 n (by
        rw [hsplits]
        exact List.mem_append_left _ hn)
      have hTS : findMatch "TEST_SIZE" .floatLike code = some (jsNumToStr qv) := by
        rw [hcode]
        exact present_testSize sorted "classification" p q2 ds hsplits hdst
          hgp hpno qv hqv hqg
      have hb : parseFloatChars (jsNumToStr qv).data = qv :=
        parseFloat_round_good qv hqg
      refine ⟨ds, hdsmem, hdst, qv, hqv, ?_⟩
      simp [splitPatch, parseCodeToConfig, optEntry, hTS, hb]
  have hMO : (∃ dm ∈ nodes, dm.data.blockType = "model"
        ∧ ∃ tk ne md, (nodeParams dm).lookup "task" = some (.vstr tk)
          ∧ (nodeParams dm).lookup "n_estimators" = some (.vnum ne)
          ∧ (nodeParams dm).lookup "max_depth" = some (.vnum md)
          ∧ modelPatch (parseCodeToConfig code)
              = [("task", .vstr tk), ("n_estimators", .vnum ne),
                 ("max_depth", .vnum md)])
      ∨ ((∀ n ∈ nodes, n.data.blockType ≠ "model")
        ∧ modelPatch (parseCodeToConfig code) = []) := by
    rcases split_by_type sorted "model" with hno | ⟨p, dm, q2, hsplitm, hdmt, hpno⟩
    · right
      refine ⟨fun n hn => hno n (hperm.mem_iff.mpr hn), ?_⟩
      have hTK : findMatch "TASK_TYPE" .quoted code = none := by
        rw [hcode]
        exact findMatch_absent "TASK_TYPE" .quoted 'T' "ASK_TYPE".data rfl
          (by decide) (by decide) sorted "classification" hgood2 (by decide)
          (fun n hn => segsOk_taskType _ (hno n hn))
      have hNE : findMatch "N_ESTIMATORS" .intLike code = none := by
        rw [hcode]
        exact findMatch_absent "N_ESTIMATORS" .intLike 'N' "_ESTIMATORS".data
          rfl (by decide) (by decide) sorted "classification" hgood2 (by decide)
          (fun n hn => segsOk_nEstimators _ (hno n hn))
      have hMD : findMatch "MAX_DEPTH" .intLike code = none := by
        rw [hcode]
        exact findMatch_absent "MAX_DEPTH" .intLike 'M' "AX_DEPTH".data rfl
          (by decide) (by decide) sorted "classification" hgood2 (by decide)
          (fun n hn => segsOk_maxDepth _ (hno n hn))
      simp [modelPatch, parseCodeToConfig, optEntry, hTK, hNE, hMD]
    · left
      have hdmsorted : dm ∈ sorted := by
        rw [hsplitm]
        exact List.mem_append_right _ (List.mem_cons_self _ _)
      have hdmmem : dm ∈ nodes := hperm.mem_iff.mp hdmsorted
      have hgd := hgood2 dm hdmsorted
      rcases (by rw [goodParams, hdmt] at hgd; exact hgd :
          (∃ tk, (nodeParams dm).lookup "task" = some (.vstr tk)
            ∧ safeStrB tk = true)
          ∧ (∃ ne, (nodeParams dm).lookup "n_estimators" = some (.vnum ne)
            ∧ goodIntB ne = true)
          ∧ (∃ md, (nodeParams dm).lookup "max_depth" = some (.vnum md)
            ∧ goodIntB md = true)) with
        ⟨⟨tk, htk, htks⟩, ⟨ne, hne, hneg⟩, ⟨md, hmd, hmdg⟩⟩
      have hgp : ∀ n ∈ p, goodParams n := fun n hn => hgood2 n (by
        rw [hsplitm]
        exact List.mem_append_left _ hn)
      have hTK : findMatch "TASK_TYPE" .quoted code = some tk := by
        rw [hcode]
        exact present_taskType sorted "classification" p q2 dm hsplitm hdmt
          hgp hpno tk ne md htk htks hne hmd
      have hNE : findMatch "N_ESTIMATORS" .intLike code
          = some (jsNumToStr ne) := by
        rw [hcode]
        exact present_nEstimators sorted "classification" p q2 dm hsplitm hdmt
          hgp hpno tk ne md htk htks hne hneg hmd
      have hMD : findMatch "MAX_DEPTH" .intLike code
          = some (jsNumToStr md) := by
        rw [hcode]
        exact present_maxDepth sorted "classification" p q2 dm hsplitm hdmt
          hgp hpno tk ne md htk htks hne hneg hmd hmdg
      have hb1 : parseIntChars (jsNumToStr ne).data = ne :=
        parseInt_round_good ne hneg
      have hb2 : parseIntChars (jsNumToStr md).data = md :=
        parseInt_round_good md hmdg
      refine ⟨dm, hdmmem, hdmt, tk, ne, md, htk, hne, hmd, ?_⟩
      simp [modelPatch, parseCodeToConfig, optEntry, hTK, hNE, hMD, hb1, hb2]
  refine map_self_nodes _ _ ?_
  intro n hn
  by_cases h1 : n.data.blockType = "dataset"
  · rcases hDS with ⟨dd, hddmem, hddt, fp, tg, hfp, htg, hpatch⟩ | ⟨hnone, _⟩
    · have heq : n = dd :=
        eq_of_count_le_one nodes hnodesnd "dataset" hda n dd hn hddmem h1 hddt
      rw [heq]
      apply applyTo_eq_self
      have hpf : patchFor (parseCodeToConfig code) dd.data.blockType
          = datasetPatch (parseCodeToConfig code) := by
        rw [hddt]
        rfl
      rw [hpf, hpatch]
      refine mergeParams_id _ _ (hkeys dd hddmem) ?_
      intro k v hkv
      have hmem := lookup_mem _ k v hkv
      simp only [List.mem_cons, List.not_mem_nil, or_false] at hmem
      rcases hmem with heq2 | heq2
      · injection heq2 with hk hv
        subst hk
        subst hv
        exact hfp
      · injection heq2 with hk hv
        subst hk
        subst hv
        exact htg
    · exact absurd h1 (hnone n hn)
  by_cases h2 : n.data.blockType = "split"
  · rcases hSP with ⟨ds, hdsmem, hdst, qv, hqv, hpatch⟩ | ⟨hnone, _⟩
    · have heq : n = ds :=
        eq_of_count_le_one nodes hnodesnd "split" hsp n ds hn hdsmem h2 hdst
      rw [heq]
      apply applyTo_eq_self
      have hpf : patchFor (parseCodeToConfig code) ds.data.blockType
          = splitPatch (parseCodeToConfig code) := by
        rw [hdst]
        rfl
      rw [hpf, hpatch]
      refine mergeParams_id _ _ (hkeys ds hdsmem) ?_
      intro k v hkv
      have hmem := lookup_mem _ k v hkv
      simp only [List.mem_cons, List.not_mem_nil, or_false] at hmem
      injection hmem with hk hv
      subst hk
      subst hv
      exact hqv
    · exact absurd h2 (hnone n hn)
  by_cases h3 : n.data.blockType = "model"
  · rcases hMO with ⟨dm, hdmmem, hdmt, tk, ne, md, htk, hne, hmd, hpatch⟩ | ⟨hnone, _⟩
    · have heq : n = dm :=
        eq_of_count_le_one nodes hnodesnd "model" hmo n dm hn hdmmem h3 hdmt
      rw [heq]
      apply applyTo_eq_self
      have hpf : patchFor (parseCodeToConfig code) dm.data.blockType
          = modelPatch (parseCodeToConfig code) := by
        rw [hdmt]
        rfl
      rw [hpf, hpatch]
      refine mergeParams_id _ _ (hkeys dm hdmmem) ?_
      intro k v hkv
      have hmem := lookup_mem _ k v hkv
      simp only [List.mem_cons, List.not_mem_nil, or_false] at hmem
      rcases hmem with heq2 | heq2 | heq2
      · injection heq2 with hk hv
        subst hk
        subst hv
        exact htk
      · injection heq2 with hk hv
        subst hk
        subst hv
        exact hne
      · injection heq2 with hk hv
        subst hk
        subst hv
        exact hmd
    · exact absurd h3 (hnone n hn)
  have hpf : patchFor (parseCodeToConfig code) n.data.blockType = [] := by
    simp only [patchFor]
  exact applyTo_other _ _ hpf

/-- C3 (amended): the round trip `handleApplyChanges (generatePythonCode
nodes edges) nodes` returns the nodes unchanged (with the `synced` badge)
whenever the graph is well-formed: node ids are distinct, each node's
parameter object has distinct keys, every marker-covered parameter is
present with a value the markers reprint and reparse exactly (nonempty
strings without quotes or uppercase letters; nonnegative numbers in
canonical decimal form, integral where `parseInt` is used), and at most
one block of each configurable type (`dataset`, `split`, `model`) exists.
The unrestricted claim is false (see the counterexample): a falsy or
quote-bearing parameter, a duplicated block type, or a non-canonical
number is changed by the round trip. -/
theorem C3_roundtrip_amended (nodes : List Node) (edges : List Edge)
    (hids : (nodes.map (fun n => n.id)).Nodup)
    (hkeys : ∀ n ∈ nodes, ((nodeParams n).map Prod.fst).Nodup)
    (hgood : ∀ n ∈ nodes, goodParams n)
    (hda : countType nodes "dataset" ≤ 1)
    (hsp : countType nodes "split" ≤ 1)
    (hmo : countType nodes "model" ≤ 1) :
    handleApplyChanges (generatePythonCode nodes edges) nodes
      = (nodes, SyncStatus.synced) := by
  rw [handleApplyChanges]
  by_cases hemp : nodes.isEmpty = true
  · have h0 : nodes = [] := List.isEmpty_iff.mp hemp
    subst h0
    rfl
  · have hcode : generatePythonCode nodes edges
        = joinLn (headerLines
            ++ renderBlocks (sortedNodes nodes edges) "classification") := by
      rw [generatePythonCode, if_neg hemp]
    have hmap := roundtrip_core nodes (sortedNodes nodes edges)
      (generatePythonCode nodes edges) hcode
      (sortedNodes_perm nodes edges hids)
      (List.Nodup.of_map _ hids) hkeys hgood hda hsp hmo
    rw [hmap]

/-- C3 witness: the amended round-trip theorem applied to the canonical
five-block demo pipeline. -/
theorem C3_roundtrip_amended_witness :
    handleApplyChanges (generatePythonCode demoNodes demoEdges) demoNodes
      = (demoNodes, SyncStatus.synced) := by
  refine C3_roundtrip_amended demoNodes demoEdges (by decide) (by decide)
    ?_ (by decide) (by decide) (by decide)
  intro n hn
  simp only [demoNodes, List.mem_cons, List.not_mem_nil, or_false] at hn
  rcases hn with rfl | rfl | rfl | rfl | rfl
  · exact ⟨⟨"data/train.csv", rfl, by decide⟩, ⟨"label", rfl, by decide⟩⟩
  · exact ⟨.dec false 0 [⟨2, by omega⟩], rfl, by decide⟩
  · exact ⟨⟨"regression", rfl, by decide⟩,
      ⟨.dec false 200 [], rfl, by decide⟩, ⟨.dec false 7 [], rfl, by decide⟩⟩
  · trivial
  · trivial
